import Mathlib

/-!
# Verification of the piccolo bytecode core

Shallow embedding of the piccolo scripting-language core (scanner, bytecode
emitter, stack VM) translated from the repository sources:

* `src/compiler/scanner.rs` — the scanner (`Scanner`, `TokenKind`, helpers);
* `src/compiler/emitter.rs` — the bytecode emitter (`Emitter`, visitors);
* `src/runtime/vm.rs`       — the virtual machine (`Machine::interpret`).

The repository snapshot does not contain `src/runtime/op.rs`,
`src/runtime/chunk.rs`, `src/runtime/memory.rs`, `src/runtime/value.rs`,
`src/error.rs`, nor the compiler's `ast.rs`/parser; those parts are modelled
from the specification (spec.md §3–§4.6) and are marked `Modelled from the
spec:` in their doc comments.

Embedding conventions:
* bytes and machine integers are `Nat`/`Int` (i64 arithmetic wraps through
  `iwrap`); `f64` payloads are modelled by `ℚ` (no claim depends on
  floating-point arithmetic, only on which constructor an operation produces);
* Rust panics (out-of-bounds indexing, `unwrap`, `todo!`, missing match arms)
  are modelled by an explicit stuck/none result, never by a default value;
* the unbounded scan/interpret driver loops take a fuel parameter with a
  dedicated out-of-fuel marker, distinct from the panic marker.
-/

namespace Piccolo

/-- Byte strings: the Rust code works on `&[u8]`/`String` data; lexemes, names
and messages are byte sequences here. -/
abbrev Str := List Nat

/-- ASCII bytes of a Lean string literal (used only to write concrete inputs
and expected messages readably). -/
def bytes (s : String) : Str := s.data.map Char.toNat

/-- i64 two's-complement wrapping (the Rust build wraps, spec §9). -/
def iwrap (x : Int) : Int := (x + 2 ^ 63) % 2 ^ 64 - 2 ^ 63

theorem iwrap_eq_self (x : Int) (h1 : -2 ^ 63 ≤ x) (h2 : x < 2 ^ 63) :
    iwrap x = x := by
  unfold iwrap
  omega

/-! ## Tokens — from `src/compiler/scanner.rs` -/

/-- Token kinds, from `src/compiler/scanner.rs`. `Declare` (the `:=` token) is
referenced by `src/compiler/emitter.rs` but absent from the scanner's enum in
this snapshot; it is included here, modelled from the spec (§4.2); the scanner
never produces it. -/
inductive TokenKind where
  | Do | End | Fn | If | Else | While | For | In | Data | Let | Is | Me | New
  | Err | Retn | Assert | Nil
  | LeftBracket | RightBracket | LeftParen | RightParen
  | Comma | Period | ExclusiveRange | InclusiveRange | Assign | Declare
  | Not | Plus | Minus | Multiply | Divide | Modulo
  | LogicalAnd | LogicalOr | BitwiseAnd | BitwiseOr | BitwiseXor
  | Equal | NotEqual | Less | Greater | LessEqual | GreaterEqual
  | ShiftLeft | ShiftRight
  | Identifier | String | True | False
  | Double (d : ℚ) | Integer (i : Int)
  | Eof

/-- Shallow injective encoding of `TokenKind` (the derived `DecidableEq`
would elaborate a 52×52 match; this keeps every term linear in the number of
constructors). -/
def tkEnc : TokenKind → Nat ⊕ ℚ ⊕ Int
  | .Do => .inl 0 | .End => .inl 1 | .Fn => .inl 2 | .If => .inl 3
  | .Else => .inl 4 | .While => .inl 5 | .For => .inl 6 | .In => .inl 7
  | .Data => .inl 8 | .Let => .inl 9 | .Is => .inl 10 | .Me => .inl 11
  | .New => .inl 12 | .Err => .inl 13 | .Retn => .inl 14 | .Assert => .inl 15
  | .Nil => .inl 16 | .LeftBracket => .inl 17 | .RightBracket => .inl 18
  | .LeftParen => .inl 19 | .RightParen => .inl 20 | .Comma => .inl 21
  | .Period => .inl 22 | .ExclusiveRange => .inl 23 | .InclusiveRange => .inl 24
  | .Assign => .inl 25 | .Declare => .inl 26 | .Not => .inl 27
  | .Plus => .inl 28 | .Minus => .inl 29 | .Multiply => .inl 30
  | .Divide => .inl 31 | .Modulo => .inl 32 | .LogicalAnd => .inl 33
  | .LogicalOr => .inl 34 | .BitwiseAnd => .inl 35 | .BitwiseOr => .inl 36
  | .BitwiseXor => .inl 37 | .Equal => .inl 38 | .NotEqual => .inl 39
  | .Less => .inl 40 | .Greater => .inl 41 | .LessEqual => .inl 42
  | .GreaterEqual => .inl 43 | .ShiftLeft => .inl 44 | .ShiftRight => .inl 45
  | .Identifier => .inl 46 | .String => .inl 47 | .True => .inl 48
  | .False => .inl 49 | .Eof => .inl 50
  | .Double d => .inr (.inl d) | .Integer i => .inr (.inr i)

def tkDec : Nat ⊕ ℚ ⊕ Int → TokenKind
  | .inl 0 => .Do | .inl 1 => .End | .inl 2 => .Fn | .inl 3 => .If
  | .inl 4 => .Else | .inl 5 => .While | .inl 6 => .For | .inl 7 => .In
  | .inl 8 => .Data | .inl 9 => .Let | .inl 10 => .Is | .inl 11 => .Me
  | .inl 12 => .New | .inl 13 => .Err | .inl 14 => .Retn | .inl 15 => .Assert
  | .inl 16 => .Nil | .inl 17 => .LeftBracket | .inl 18 => .RightBracket
  | .inl 19 => .LeftParen | .inl 20 => .RightParen | .inl 21 => .Comma
  | .inl 22 => .Period | .inl 23 => .ExclusiveRange | .inl 24 => .InclusiveRange
  | .inl 25 => .Assign | .inl 26 => .Declare | .inl 27 => .Not
  | .inl 28 => .Plus | .inl 29 => .Minus | .inl 30 => .Multiply
  | .inl 31 => .Divide | .inl 32 => .Modulo | .inl 33 => .LogicalAnd
  | .inl 34 => .LogicalOr | .inl 35 => .BitwiseAnd | .inl 36 => .BitwiseOr
  | .inl 37 => .BitwiseXor | .inl 38 => .Equal | .inl 39 => .NotEqual
  | .inl 40 => .Less | .inl 41 => .Greater | .inl 42 => .LessEqual
  | .inl 43 => .GreaterEqual | .inl 44 => .ShiftLeft | .inl 45 => .ShiftRight
  | .inl 46 => .Identifier | .inl 47 => .String | .inl 48 => .True
  | .inl 49 => .False
  | .inr (.inl d) => .Double d | .inr (.inr i) => .Integer i
  | _ => .Eof

theorem tkDec_enc : ∀ k : TokenKind, tkDec (tkEnc k) = k := by
  intro k
  cases k <;> rfl

instance : DecidableEq TokenKind := fun a b =>
  if h : tkEnc a = tkEnc b then
    .isTrue (by rw [← tkDec_enc a, ← tkDec_enc b, h])
  else .isFalse (fun hab => h (by rw [hab]))

/-- A token: kind, lexeme (slice of the source) and 1-based line. -/
structure Token where
  kind : TokenKind
  lexeme : Str
  line : Nat
deriving DecidableEq

/-- Keyword table, from `into_keyword`. -/
def intoKeyword (s : Str) : Option TokenKind :=
  if s = bytes "do" then some .Do
  else if s = bytes "end" then some .End
  else if s = bytes "fn" then some .Fn
  else if s = bytes "if" then some .If
  else if s = bytes "else" then some .Else
  else if s = bytes "while" then some .While
  else if s = bytes "for" then some .For
  else if s = bytes "in" then some .In
  else if s = bytes "data" then some .Data
  else if s = bytes "let" then some .Let
  else if s = bytes "is" then some .Is
  else if s = bytes "me" then some .Me
  else if s = bytes "new" then some .New
  else if s = bytes "err" then some .Err
  else if s = bytes "retn" then some .Retn
  else if s = bytes "assert" then some .Assert
  else if s = bytes "true" then some .True
  else if s = bytes "false" then some .False
  else if s = bytes "nil" then some .Nil
  else none

/-- `is_digit`. -/
def isDigit (c : Nat) : Bool := 48 ≤ c ∧ c ≤ 57

/-- `is_whitespace` (tab, LF, VT, FF, CR, space). -/
def isWs (c : Nat) : Bool := c = 9 ∨ c = 10 ∨ c = 11 ∨ c = 12 ∨ c = 13 ∨ c = 32

/-- `is_non_identifier`. -/
def isNonIdentifier (c : Nat) : Bool :=
  isWs c ∨ c = 0 ∨ c = 35 ∨ c = 91 ∨ c = 93 ∨ c = 40 ∨ c = 41 ∨ c = 44 ∨
  c = 45 ∨ c = 43 ∨ c = 42 ∨ c = 47 ∨ c = 94 ∨ c = 37 ∨ c = 38 ∨ c = 124 ∨
  c = 46 ∨ c = 33 ∨ c = 58 ∨ c = 61 ∨ c = 62 ∨ c = 60 ∨ c = 34

/-- Structural UTF-8 validity of a byte sequence (`core::str::from_utf8`
succeeds; overlong/surrogate corner cases are not needed by any claim — all
concrete inputs are ASCII). -/
def utf8Cont (c : Nat) : Bool := 128 ≤ c ∧ c < 192

/-- `utf8ValidK k bs`: `bs` is valid UTF-8 after `k` more continuation bytes.
Lead byte `b` demands 0 (ASCII), 1 (`C2..DF`), 2 (`E0..EF`) or 3 (`F0..F4`)
continuation bytes; anything else is invalid. -/
def utf8ValidK : Nat → Str → Bool
  | 0, [] => true
  | 0, b :: rest =>
    if b < 128 then utf8ValidK 0 rest
    else if 194 ≤ b ∧ b < 224 then utf8ValidK 1 rest
    else if 224 ≤ b ∧ b < 240 then utf8ValidK 2 rest
    else if 240 ≤ b ∧ b < 245 then utf8ValidK 3 rest
    else false
  | _ + 1, [] => false
  | k + 1, c :: rest => utf8Cont c && utf8ValidK k rest

def utf8Valid (bs : Str) : Bool := utf8ValidK 0 bs

/-- Rust `str::parse::<i64>` restricted to the inputs the scanner passes it
(runs of ASCII digits): the numeric value if it fits in an `i64`. -/
def digitsVal (bs : Str) : Nat := bs.foldl (fun a b => a * 10 + (b - 48)) 0

def parseI64 (bs : Str) : Option Int :=
  if bs ≠ [] ∧ bs.all (fun b => isDigit b) ∧ digitsVal bs ≤ 2 ^ 63 - 1 then
    some (digitsVal bs)
  else none

/-! ## Opcodes and errors -/

/-- Modelled from the spec: `src/runtime/op.rs` is absent from the snapshot;
the opcode set is the one of spec §4.6, which is exactly the set used by
`src/compiler/emitter.rs` and (minus `Jump`/`JumpFalse`) by
`src/runtime/vm.rs`. -/
inductive Opcode where
  | Return | Constant | Nil | True | False
  | Negate | Add | Subtract | Multiply | Divide | Modulo | Not
  | Equal | Greater | Less | GreaterEqual | LessEqual
  | Pop | GetLocal | SetLocal | GetGlobal | SetGlobal | DeclareGlobal
  | Assert | Jump | JumpFalse
deriving DecidableEq

/-- Byte encoding of opcodes (the spec leaves the numbering
implementation-defined but stable; emitter and VM share this table). -/
def Opcode.toByte : Opcode → Nat
  | .Return => 0 | .Constant => 1 | .Nil => 2 | .True => 3 | .False => 4
  | .Negate => 5 | .Add => 6 | .Subtract => 7 | .Multiply => 8 | .Divide => 9
  | .Modulo => 10 | .Not => 11 | .Equal => 12 | .Greater => 13 | .Less => 14
  | .GreaterEqual => 15 | .LessEqual => 16 | .Pop => 17 | .GetLocal => 18
  | .SetLocal => 19 | .GetGlobal => 20 | .SetGlobal => 21
  | .DeclareGlobal => 22 | .Assert => 23 | .Jump => 24 | .JumpFalse => 25

/-- `impl From<u8> for Opcode` — panics (`none`) on a byte that corresponds to
no opcode. -/
def ofByte (b : Nat) : Option Opcode :=
  if b = 0 then some .Return else if b = 1 then some .Constant
  else if b = 2 then some .Nil else if b = 3 then some .True
  else if b = 4 then some .False else if b = 5 then some .Negate
  else if b = 6 then some .Add else if b = 7 then some .Subtract
  else if b = 8 then some .Multiply else if b = 9 then some .Divide
  else if b = 10 then some .Modulo else if b = 11 then some .Not
  else if b = 12 then some .Equal else if b = 13 then some .Greater
  else if b = 14 then some .Less else if b = 15 then some .GreaterEqual
  else if b = 16 then some .LessEqual else if b = 17 then some .Pop
  else if b = 18 then some .GetLocal else if b = 19 then some .SetLocal
  else if b = 20 then some .GetGlobal else if b = 21 then some .SetGlobal
  else if b = 22 then some .DeclareGlobal else if b = 23 then some .Assert
  else if b = 24 then some .Jump else if b = 25 then some .JumpFalse
  else none

/-- Modelled from the spec: `src/error.rs` is absent from the snapshot; the
error kinds are those of spec §4.7 with the payloads the sources under `src/`
construct. -/
inductive ErrorKind where
  | UnterminatedString
  | InvalidUTF8
  | InvalidNumberLiteral (literal : Str)
  | SyntaxError
  | UndefinedVariable (name : Str)
  | IncorrectType (exp : Str) (got : Str) (op : Opcode)
  | StackUnderflow (op : Opcode)
  | AssertFailed
deriving DecidableEq

/-- `PiccoloError { kind, line, msg }` (the `file` decoration is out of the
core). -/
structure PiccoloError where
  kind : ErrorKind
  line : Option Nat := none
  msg : Option Str := none
deriving DecidableEq

/-! ## Scanner — from `src/compiler/scanner.rs`

`Scanner { source, tokens, start, current, line }`.  `advance` indexes
`source[current]` after incrementing `current`: past the end this is a Rust
panic (index out of bounds), modelled by `none` / the `stuck` result. -/

structure ScanState where
  source : Str
  tokens : List Token
  start : Nat
  current : Nat
  line : Nat
deriving DecidableEq

def ScanState.isAtEnd (s : ScanState) : Bool := s.source.length ≤ s.current

/-- `peek`: 0 (NUL) past the end of the source. -/
def ScanState.peek (s : ScanState) : Nat :=
  if s.isAtEnd then 0 else s.source.getD s.current 0

/-- `lookahead(n)`. -/
def ScanState.look (s : ScanState) (n : Nat) : Nat :=
  if s.isAtEnd ∨ s.source.length ≤ s.current + n then 0
  else s.source.getD (s.current + n) 0

/-- The byte `advance` would return (callers below pair this with `bump`;
whether `advance` panics is checked separately at each call site). -/
def ScanState.cur (s : ScanState) : Nat := s.source.getD s.current 0

def ScanState.bump (s : ScanState) : ScanState := { s with current := s.current + 1 }

theorem peek_lt_of_ne_zero {s : ScanState} (h : s.peek ≠ 0) :
    s.current < s.source.length := by
  by_contra hc
  simp [ScanState.peek, ScanState.isAtEnd] at h
  omega

/-- Iteration budget for a scanner loop starting at `s`: every iteration of
every loop below advances `current` by at least one, so `|source| + 1 -
current` iterations always reach the loop exit (or the modelled panic) first;
the out-of-fuel fallbacks are unreachable.  Fuel recursion (rather than
well-founded recursion) keeps every definition kernel-reducible. -/
def gas (s : ScanState) : Nat := s.source.length + 1 - s.current

/-- The comment-skipping loop inside `slurp_whitespace`:
`while self.peek() != b'\n' { self.advance(); }`.  At end of input `peek`
returns NUL (≠ LF) and `advance` indexes past the end: Rust panics (`none`). -/
def skipCommentF : Nat → ScanState → Option ScanState
  | 0, _ => none
  | fuel + 1, s =>
    if s.peek ≠ 10 then
      if s.current < s.source.length then skipCommentF fuel s.bump else none
    else some s

def skipComment (s : ScanState) : Option ScanState := skipCommentF (gas s) s

/-- The whitespace loop inside `slurp_whitespace`:
`while is_whitespace(self.peek()) { if self.advance() == b'\n' { line += 1 } }`.
`peek` being whitespace implies not at end, so `advance` cannot panic here. -/
def skipWsF : Nat → ScanState → ScanState
  | 0, s => s
  | fuel + 1, s =>
    if isWs s.peek then
      skipWsF fuel
        { s.bump with line := if s.cur = 10 then s.line + 1 else s.line }
    else s

def skipWs (s : ScanState) : ScanState := skipWsF (gas s) s

/-- `slurp_whitespace`: skip comments and whitespace between tokens.  One loop
iteration skips a comment when the next byte is `#` and then a run of
whitespace. -/
def slurpWhitespaceF : Nat → ScanState → Option ScanState
  | 0, _ => none
  | fuel + 1, s =>
    if s.peek = 35 ∨ isWs s.peek then
      if s.peek = 35 then
        match skipComment s with
        | none => none
        | some s1 => slurpWhitespaceF fuel (skipWs s1)
      else slurpWhitespaceF fuel (skipWs s)
    else some s

def slurpWhitespace (s : ScanState) : Option ScanState :=
  slurpWhitespaceF (gas s) s

/-- The slice `&self.source[self.start..self.current]`. -/
def ScanState.lexeme (s : ScanState) : Str :=
  (s.source.drop s.start).take (s.current - s.start)

/-- The identifier loop: `while !is_non_identifier(self.peek()) { advance }`
(NUL past the end is a non-identifier byte, so no panic is possible). -/
def identLoopF : Nat → ScanState → ScanState
  | 0, s => s
  | fuel + 1, s =>
    if ¬ isNonIdentifier s.peek then identLoopF fuel s.bump else s

def identLoop (s : ScanState) : ScanState := identLoopF (gas s) s

/-- `identifier_or_keyword`. -/
def identifierOrKeyword (s : ScanState) :
    Except PiccoloError (TokenKind × ScanState) :=
  let s1 := identLoop s
  if utf8Valid s1.lexeme then
    match intoKeyword s1.lexeme with
    | some tk => .ok (tk, s1)
    | none => .ok (.Identifier, s1)
  else .error ⟨.InvalidUTF8, some s1.line, none⟩

/-- The string-body loop of `string()`.  A backslash consumes the next byte
too; the final unconditional `advance` panics (`none`) when it runs past the
end (a source ending in a lone backslash inside a string). -/
def strLoopF : Nat → ScanState → Option ScanState
  | 0, _ => none
  | fuel + 1, s =>
    if s.peek ≠ 34 ∧ s.current < s.source.length then
      let l1 := if s.peek = 10 then s.line + 1 else s.line
      if s.peek = 92 then
        if s.current + 1 < s.source.length then
          strLoopF fuel { s with current := s.current + 2, line := l1 + 1 }
        else none
      else strLoopF fuel { s with current := s.current + 1, line := l1 }
    else some s

def strLoop (s : ScanState) : Option ScanState := strLoopF (gas s) s

/-- `string()`: body loop, then unterminated-string check (reporting the line
the string started on), then consume the closing quote. -/
def stringTok (s : ScanState) :
    Option (Except PiccoloError (TokenKind × ScanState)) :=
  let lineStart := s.line
  match strLoop s with
  | none => none
  | some s1 =>
    if s1.isAtEnd then some (.error ⟨.UnterminatedString, some lineStart, none⟩)
    else some (.ok (.String, s1.bump))

/-- The digit-consuming loop of `number()`/`float()`. -/
def numLoopF : Nat → ScanState → ScanState
  | 0, s => s
  | fuel + 1, s => if isDigit s.peek then numLoopF fuel s.bump else s

def numLoop (s : ScanState) : ScanState := numLoopF (gas s) s

/-- The backing-up loop of `number()`:
`while self.current != 0 && is_digit(self.peek()) { self.reverse(); }`
(entered only when `peek` is `.`, so it never iterates; kept for
faithfulness). -/
def numRevF : Nat → ScanState → ScanState
  | 0, s => s
  | fuel + 1, s =>
    if s.current ≠ 0 ∧ isDigit s.peek then
      numRevF fuel { s with current := s.current - 1 }
    else s

def numRev (s : ScanState) : ScanState := numRevF (s.current + 1) s

/-- The shared integer-parsing tail of `number()`. -/
def intPartTok (st : ScanState) : Except PiccoloError (TokenKind × ScanState) :=
  if utf8Valid st.lexeme then
    match parseI64 st.lexeme with
    | some i => .ok (.Integer i, st)
    | none => .error ⟨.InvalidNumberLiteral st.lexeme, some st.line, none⟩
  else .error ⟨.InvalidUTF8, some st.line, none⟩

/-- `float()`: consume digits, an optional `.` plus digits, parse as f64
(modelled by an exact rational; the shape always parses). -/
def parseF64 (bs : Str) : Option ℚ :=
  let ip := bs.takeWhile (fun b => isDigit b)
  let rest := bs.drop ip.length
  if ip ≠ [] then
    match rest with
    | [] => some (digitsVal ip)
    | 46 :: fp =>
      if fp.all (fun b => isDigit b) then
        some (digitsVal ip + (digitsVal fp : ℚ) / 10 ^ fp.length)
      else none
    | _ => none
  else none

def floatTok (s : ScanState) : Except PiccoloError (TokenKind × ScanState) :=
  let s1 := numLoop s
  let s2 := if s1.peek = 46 then numLoop s1.bump else s1
  if utf8Valid s2.lexeme then
    match parseF64 s2.lexeme with
    | some q => .ok (.Double q, s2)
    | none => .error ⟨.InvalidNumberLiteral s2.lexeme, some s2.line, none⟩
  else .error ⟨.InvalidUTF8, some s2.line, none⟩

/-- `number()`: consume the digit run; on a following `.` use one byte of
lookahead to distinguish a decimal point from a range token. -/
def numberTok (s : ScanState) : Except PiccoloError (TokenKind × ScanState) :=
  let s1 := numLoop s
  if s1.peek = 46 then
    let range := s1.look 1 = 46
    let s2 := numRev s1
    if ¬ range then floatTok s2 else intPartTok s2
  else intPartTok s1

/-- `add_token`: push the token; `from_utf8(...).unwrap()` panics (`none`) on
an invalid lexeme. -/
def addToken (s : ScanState) (k : TokenKind) : Option (Token × ScanState) :=
  if utf8Valid s.lexeme then
    let tok : Token := ⟨k, s.lexeme, s.line⟩
    some (tok, { s with tokens := s.tokens ++ [tok] })
  else none

/-- The operator/dispatch match of `next_token`, applied to the byte `c` just
consumed by `advance`; `s` is the state after that `advance`.  The
whitespace arm is `panic!` in the source (unreachable after
`slurp_whitespace`). -/
def scanKind (c : Nat) (s : ScanState) :
    Option (Except PiccoloError (TokenKind × ScanState)) :=
  if c = 91 then some (.ok (.LeftBracket, s))
  else if c = 93 then some (.ok (.RightBracket, s))
  else if c = 40 then some (.ok (.LeftParen, s))
  else if c = 41 then some (.ok (.RightParen, s))
  else if c = 44 then some (.ok (.Comma, s))
  else if c = 45 then some (.ok (.Minus, s))
  else if c = 43 then some (.ok (.Plus, s))
  else if c = 42 then some (.ok (.Multiply, s))
  else if c = 47 then some (.ok (.Divide, s))
  else if c = 94 then some (.ok (.BitwiseXor, s))
  else if c = 37 then some (.ok (.Modulo, s))
  else if c = 38 then
    some (if s.peek = 38 then .ok (.LogicalAnd, s.bump) else .ok (.BitwiseAnd, s))
  else if c = 124 then
    some (if s.peek = 124 then .ok (.LogicalOr, s.bump) else .ok (.BitwiseOr, s))
  else if c = 46 then
    some (if s.peek = 46 then
            (if s.bump.peek = 46 then .ok (.InclusiveRange, s.bump.bump)
             else .ok (.ExclusiveRange, s.bump))
          else .ok (.Period, s))
  else if c = 33 then
    some (if s.peek = 61 then .ok (.NotEqual, s.bump) else .ok (.Not, s))
  else if c = 61 then
    some (if s.peek = 61 then .ok (.Equal, s.bump) else .ok (.Assign, s))
  else if c = 62 then
    some (if s.peek = 61 then .ok (.GreaterEqual, s.bump)
          else if s.peek = 62 then .ok (.ShiftRight, s.bump)
          else .ok (.Greater, s))
  else if c = 60 then
    some (if s.peek = 61 then .ok (.LessEqual, s.bump)
          else if s.peek = 60 then .ok (.ShiftLeft, s.bump)
          else .ok (.Less, s))
  else if c = 34 then stringTok s
  else if isDigit c then some (numberTok s)
  else if isWs c then none
  else some (identifierOrKeyword s)

/-- `next_token`. -/
def nextToken (s : ScanState) : Option (Except PiccoloError (Token × ScanState)) :=
  match slurpWhitespace s with
  | none => none
  | some s0 =>
    if s0.isAtEnd then
      match addToken s0 .Eof with
      | none => none
      | some (tok, s1) => some (.ok (tok, s1))
    else
      let sS : ScanState := { s0 with start := s0.current }
      match scanKind sS.cur sS.bump with
      | none => none
      | some (.error e) => some (.error e)
      | some (.ok (k, s2)) =>
        match addToken s2 k with
        | none => none
        | some (tok, s3) => some (.ok (tok, s3))

/-- Result of a whole scan: the token list, a scan error, a Rust panic
(`stuck`), or driver fuel exhaustion (never hit with the fuel
`scanTokens` supplies). -/
inductive ScanOut where
  | toks (l : List Token)
  | fail (e : PiccoloError)
  | stuck
  | fuelOut
deriving DecidableEq

/-- The `scan_tokens` loop: `while self.next_token()?.kind != Eof {}`. -/
def scanLoop : Nat → ScanState → ScanOut
  | 0, _ => .fuelOut
  | fuel + 1, s =>
    match nextToken s with
    | none => .stuck
    | some (.error e) => .fail e
    | some (.ok (tok, s1)) =>
      if tok.kind = .Eof then .toks s1.tokens else scanLoop fuel s1

/-- `Scanner::new(src).scan_tokens()`.  Every token consumes at least one
byte, so `|src| + 1` iterations always suffice. -/
def scanTokens (src : Str) : ScanOut :=
  scanLoop (src.length + 1) ⟨src, [], 0, 0, 1⟩

/-! ## Constants, values, heap

Modelled from the spec (§3, §4.5): `src/runtime/value.rs` and
`src/runtime/memory.rs` are absent from the snapshot; the shapes and the
operations below are those the spec describes and `vm.rs`/`emitter.rs` call.
`f64` payloads are `ℚ` (no claim depends on float arithmetic). -/

/-- Compile-time literal (`Constant`). -/
inductive Constant where
  | Nil
  | Bool (b : Bool)
  | Integer (i : Int)
  | Double (d : ℚ)
  | String (s : Str)
deriving DecidableEq

/-- Runtime stack cell (`Value`); `Object` is an opaque heap handle. -/
inductive Value where
  | Nil
  | Bool (b : Bool)
  | Integer (i : Int)
  | Double (d : ℚ)
  | Object (h : Nat)
deriving DecidableEq

def isDouble : Value → Bool
  | .Double _ => true
  | _ => false

def isInteger : Value → Bool
  | .Integer _ => true
  | _ => false

def isBool : Value → Bool
  | .Bool _ => true
  | _ => false

/-- Truthiness: only `Nil` and `Bool(false)` are falsy (spec §4.6/§9). -/
def isTruthy : Value → Bool
  | .Nil => false
  | .Bool b => b
  | _ => true

/-- The `f64` value of a numeric `Value` (`into::<f64>` with the `as f64`
integer promotion). -/
def toQ : Value → ℚ
  | .Double d => d
  | .Integer i => (i : ℚ)
  | _ => 0

/-- Decimal digits of a natural number (fuel `n + 1` always suffices:
`n / 10 < n` for positive `n`). -/
def natDigitsF : Nat → Nat → Str
  | 0, _ => []
  | fuel + 1, n => if n = 0 then [] else natDigitsF fuel (n / 10) ++ [48 + n % 10]

def natDigits (n : Nat) : Str := natDigitsF (n + 1) n

def natStr (n : Nat) : Str := if n = 0 then bytes "0" else natDigits n

def intStr (i : Int) : Str :=
  if i < 0 then 45 :: natStr i.natAbs else natStr i.natAbs

/-- Display of a `ℚ` double payload (representative rendering; no claim
depends on the formatting of doubles). -/
def ratStr (q : ℚ) : Str :=
  intStr q.num ++ (if q.den = 1 then [] else 47 :: natStr q.den)

/-- Lexicographic byte-string comparison (Rust `String` ordering). -/
def lexLt : Str → Str → Bool
  | [], [] => false
  | [], _ :: _ => true
  | _ :: _, [] => false
  | a :: as_, b :: bs =>
    if a < b then true else if b < a then false else lexLt as_ bs

/-- The heap: owner of runtime-allocated objects; in this core all objects
are strings.  Handles are indices, never reused. -/
structure Heap where
  objects : List Str
deriving DecidableEq

def Heap.alloc (h : Heap) (s : Str) : Heap × Nat :=
  (⟨h.objects ++ [s]⟩, h.objects.length)

def Heap.isString (h : Heap) (v : Value) : Bool :=
  match v with
  | .Object i => i < h.objects.length
  | _ => false

def Heap.typeName (h : Heap) (v : Value) : Str :=
  match v with
  | .Nil => bytes "nil"
  | .Bool _ => bytes "bool"
  | .Integer _ => bytes "integer"
  | .Double _ => bytes "double"
  | .Object _ => bytes "string"

/-- `fmt` (display) of a value through the heap. -/
def Heap.fmt (h : Heap) (v : Value) : Str :=
  match v with
  | .Nil => bytes "nil"
  | .Bool true => bytes "true"
  | .Bool false => bytes "false"
  | .Integer i => intStr i
  | .Double d => ratStr d
  | .Object i => h.objects.getD i []

/-- Dynamic equality (spec §4.6): same-tag by value, strings by content,
cross-numeric not equal, heap handle against scalar incomparable. -/
def Heap.heq (h : Heap) (a b : Value) : Option Bool :=
  match a, b with
  | .Nil, .Nil => some true
  | .Bool x, .Bool y => some (x = y)
  | .Integer x, .Integer y => some (x = y)
  | .Double x, .Double y => some (x = y)
  | .Integer _, .Double _ => some false
  | .Double _, .Integer _ => some false
  | .Object i, .Object j => some (h.objects.getD i [] = h.objects.getD j [])
  | .Object _, _ => none
  | _, .Object _ => none
  | _, _ => some false

/-- Dynamic `lt` (spec §4.6): numbers with cross-type promotion, strings
lexicographically; anything else is incomparable. -/
def Heap.hlt (h : Heap) (a b : Value) : Option Bool :=
  match a, b with
  | .Integer x, .Integer y => some (x < y)
  | .Integer x, .Double y => some ((x : ℚ) < y)
  | .Double x, .Integer y => some (x < (y : ℚ))
  | .Double x, .Double y => some (x < y)
  | .Object i, .Object j =>
    if i < h.objects.length ∧ j < h.objects.length then
      some (lexLt (h.objects.getD i []) (h.objects.getD j []))
    else none
  | _, _ => none

/-- Dynamic `gt`, mirror of `hlt`. -/
def Heap.hgt (h : Heap) (a b : Value) : Option Bool :=
  match a, b with
  | .Integer x, .Integer y => some (y < x)
  | .Integer x, .Double y => some (y < (x : ℚ))
  | .Double x, .Integer y => some ((y : ℚ) < x)
  | .Double x, .Double y => some (y < x)
  | .Object i, .Object j =>
    if i < h.objects.length ∧ j < h.objects.length then
      some (lexLt (h.objects.getD j []) (h.objects.getD i []))
    else none
  | _, _ => none

/-- `value_into_constant`: stringify heap strings into owned constants. -/
def Heap.valueIntoConstant (h : Heap) (v : Value) : Constant :=
  match v with
  | .Nil => .Nil
  | .Bool b => .Bool b
  | .Integer i => .Integer i
  | .Double d => .Double d
  | .Object i => .String (h.objects.getD i [])

/-- `constant_into_value`: string constants are materialised through the
heap. -/
def Heap.constantIntoValue (h : Heap) (c : Constant) : Value × Heap :=
  match c with
  | .Nil => (.Nil, h)
  | .Bool b => (.Bool b, h)
  | .Integer i => (.Integer i, h)
  | .Double d => (.Double d, h)
  | .String s =>
    let (h', ptr) := h.alloc s
    (.Object ptr, h')

/-! ## Chunk

Modelled from the spec (§4.4): `src/runtime/chunk.rs` is absent from the
snapshot.  `data` and `lines` are parallel; operands are 16-bit
little-endian; `write_jump` emits the opcode plus a zero placeholder and
returns the placeholder offset; `patch_jump(ph)` writes `|data| - (ph + 2)`
as the operand at `ph`. -/

structure Chunk where
  data : List Nat
  lines : List Nat
  constants : List Constant
deriving DecidableEq

def Chunk.empty : Chunk := ⟨[], [], []⟩

def Chunk.writeU8 (ch : Chunk) (op : Opcode) (line : Nat) : Chunk :=
  { ch with data := ch.data ++ [op.toByte], lines := ch.lines ++ [line] }

def Chunk.writeArgU16 (ch : Chunk) (op : Opcode) (arg line : Nat) : Chunk :=
  { ch with data := ch.data ++ [op.toByte, arg % 256, arg / 256 % 256],
            lines := ch.lines ++ [line, line, line] }

def Chunk.readShort (ch : Chunk) (ip : Nat) : Nat :=
  ch.data.getD ip 0 + 256 * ch.data.getD (ip + 1) 0

def Chunk.writeJump (ch : Chunk) (op : Opcode) (line : Nat) : Chunk × Nat :=
  ({ ch with data := ch.data ++ [op.toByte, 0, 0],
             lines := ch.lines ++ [line, line, line] },
   ch.data.length + 1)

def Chunk.patchJump (ch : Chunk) (ph : Nat) : Chunk :=
  let off := ch.data.length - (ph + 2)
  { ch with data := (ch.data.set ph (off % 256)).set (ph + 1) (off / 256 % 256) }

def Chunk.makeConstant (ch : Chunk) (c : Constant) : Chunk × Nat :=
  ({ ch with constants := ch.constants ++ [c] }, ch.constants.length)

def Chunk.getLine (ch : Chunk) (ip : Nat) : Nat := ch.lines.getD ip 0

/-! ## Machine — from `src/runtime/vm.rs`

`Machine { ip, globals, stack, heap }`.  The stack is a Rust `Vec`: indices
are absolute from the bottom, push appends, pop removes the last element.
The globals map is an association list with `HashMap::insert` semantics
(replace in place, return the previous binding). -/

structure Machine where
  ip : Nat
  globals : List (Str × Value)
  stack : List Value
  heap : Heap
deriving DecidableEq

def Machine.new : Machine := ⟨0, [], [], ⟨[]⟩⟩

/-- `HashMap::get`. -/
def glookup : List (Str × Value) → Str → Option Value
  | [], _ => none
  | (k, v) :: t, n => if k = n then some v else glookup t n

/-- `HashMap::insert`: replace an existing binding (returning the old value)
or append a new one (returning `none`). -/
def ginsert : List (Str × Value) → Str → Value →
    Option Value × List (Str × Value)
  | [], n, v => (none, [(n, v)])
  | (k, w) :: t, n, v =>
    if k = n then (some w, (n, v) :: t)
    else
      let (old, t') := ginsert t n v
      (old, (k, w) :: t')

/-- Outcome of `Machine::pop`. -/
inductive PopOut where
  | ok (v : Value) (m : Machine)
  | fail (e : PiccoloError)
  | stuck
deriving DecidableEq

/-- `Machine::pop`: pop the value stack; on an empty stack report
`StackUnderflow` carrying the opcode at `ip - 1` (whose `From<u8>` conversion
can itself panic). -/
def popVal (ch : Chunk) (m : Machine) : PopOut :=
  match m.stack.getLast? with
  | some v => .ok v { m with stack := m.stack.dropLast }
  | none =>
    match ofByte (ch.data.getD (m.ip - 1) 0) with
    | some op =>
      .fail ⟨.StackUnderflow op, some (ch.getLine m.ip),
             some (bytes "file a bug report!")⟩
    | none => .stuck

/-- Outcome of one dispatch iteration of `Machine::interpret`. -/
inductive Step where
  | next (m : Machine)
  | halt (c : Constant)
  | fail (e : PiccoloError) (m : Machine)
  | stuck
deriving DecidableEq

/-- Rust `f64 %` (truncated remainder) on the rational carrier
(representative: no claim depends on double arithmetic results). -/
def qmod (a b : ℚ) : ℚ := a - b * ((a / b).floor : ℚ)

def intOf : Value → Int
  | .Integer i => i
  | _ => 0

/-- The `bin_op!` macro of `Machine::interpret`.  `m` already has `ip` past
the opcode byte; `errOp` is the opcode baked into the macro invocation (the
source passes `Opcode::Multiply` for `Divide` and `Modulo`); `iop` returns
`none` where Rust i64 arithmetic panics (division by zero); `concat` enables
the string-concatenation arm.  Error lines use `get_line_from_index(self.ip)`
— the byte after the opcode. -/
def binOp (ch : Chunk) (m : Machine) (errOp : Opcode) (opStr : Str)
    (iop : Int → Int → Option Int) (qop : ℚ → ℚ → ℚ) (concat : Bool) : Step :=
  match popVal ch m with
  | .stuck => .stuck
  | .fail e => .fail e m
  | .ok rhs m1 =>
    match popVal ch m1 with
    | .stuck => .stuck
    | .fail e => .fail e m1
    | .ok lhs m2 =>
      if isDouble lhs then
        if isDouble rhs ∨ isInteger rhs then
          .next { m2 with stack := m2.stack ++ [.Double (qop (toQ lhs) (toQ rhs))] }
        else
          .fail ⟨.IncorrectType (bytes "integer or double")
                  (bytes "double" ++ [32] ++ opStr ++ [32] ++ m2.heap.typeName rhs)
                  errOp,
                 some (ch.getLine m.ip), none⟩ m2
      else if isInteger lhs then
        if isInteger rhs then
          match iop (intOf lhs) (intOf rhs) with
          | some r => .next { m2 with stack := m2.stack ++ [.Integer r] }
          | none => .stuck
        else if isDouble rhs then
          .next { m2 with stack := m2.stack ++ [.Double (qop (toQ lhs) (toQ rhs))] }
        else
          .fail ⟨.IncorrectType (bytes "integer or double")
                  (bytes "integer" ++ [32] ++ opStr ++ [32] ++ m2.heap.typeName rhs)
                  errOp,
                 some (ch.getLine m.ip), none⟩ m2
      else if concat ∧ m2.heap.isString lhs then
        let s := m2.heap.fmt lhs ++ m2.heap.fmt rhs
        let (h', ptr) := m2.heap.alloc s
        .next { m2 with stack := m2.stack ++ [.Object ptr], heap := h' }
      else
        .fail ⟨.IncorrectType (bytes "integer or double")
                (m2.heap.typeName lhs ++ [32] ++ opStr ++ [32] ++ m2.heap.typeName rhs)
                errOp,
               some (ch.getLine m.ip), none⟩ m2

/-- The four comparison arms of `Machine::interpret`: pop rhs then lhs,
reject booleans, then dispatch `gt`/`lt` through the heap; `GreaterEqual` and
`LessEqual` negate the result of `lt`/`gt` respectively.  Error lines use
`get_line_from_index(self.ip - 1)`. -/
def cmpOp (ch : Chunk) (m : Machine) (op : Opcode)
    (sel : Heap → Value → Value → Option Bool) (neg : Bool) : Step :=
  match popVal ch m with
  | .stuck => .stuck
  | .fail e => .fail e m
  | .ok rhs m1 =>
    match popVal ch m1 with
    | .stuck => .stuck
    | .fail e => .fail e m1
    | .ok lhs m2 =>
      if isBool rhs ∨ isBool lhs then
        .fail ⟨.IncorrectType (bytes "that isn't bool") (bytes "bool") op,
               some (ch.getLine (m.ip - 1)), none⟩ m2
      else
        match sel m2.heap lhs rhs with
        | some b =>
          .next { m2 with stack := m2.stack ++ [.Bool (if neg then ! b else b)] }
        | none =>
          .fail ⟨.IncorrectType (m2.heap.typeName lhs) (m2.heap.typeName rhs) op,
                 some (ch.getLine (m.ip - 1)), none⟩ m2

/-- One fetch-decode-execute iteration of `Machine::interpret` (the body of
the `while self.ip < chunk.data.len()` loop).  `Jump` and `JumpFalse` have no
arm in the source's dispatch match: executing them is modelled as `stuck`. -/
def stepInstr (ch : Chunk) (m : Machine) : Step :=
  let inst := ch.data.getD m.ip 0
  let m1 : Machine := { m with ip := m.ip + 1 }
  match ofByte inst with
  | none => .stuck
  | some op =>
    match op with
    | .Pop =>
      match popVal ch m1 with
      | .ok v m2 =>
        if m1.ip = ch.data.length then .halt (m2.heap.valueIntoConstant v)
        else .next m2
      | .fail e => .fail e m1
      | .stuck => .stuck
    | .Return =>
      -- `println!("{}", fmt(&v))`: observable output is out of this model
      match popVal ch m1 with
      | .ok _ m2 => .next m2
      | .fail e => .fail e m1
      | .stuck => .stuck
    | .Constant =>
      match ch.constants.get? (ch.readShort m1.ip) with
      | none => .stuck
      | some c =>
        let (v, h') := m1.heap.constantIntoValue c
        .next { m1 with stack := m1.stack ++ [v], heap := h', ip := m1.ip + 2 }
    | .Nil => .next { m1 with stack := m1.stack ++ [.Nil] }
    | .True => .next { m1 with stack := m1.stack ++ [.Bool true] }
    | .False => .next { m1 with stack := m1.stack ++ [.Bool false] }
    | .Negate =>
      match popVal ch m1 with
      | .ok v m2 =>
        if isDouble v then .next { m2 with stack := m2.stack ++ [.Double (-(toQ v))] }
        else if isInteger v then
          .next { m2 with stack := m2.stack ++ [.Integer (iwrap (-(intOf v)))] }
        else
          .fail ⟨.IncorrectType (bytes "integer or double") (m2.heap.typeName v)
                  .Negate, some (ch.getLine (m1.ip - 1)), none⟩ m2
      | .fail e => .fail e m1
      | .stuck => .stuck
    | .Not =>
      match popVal ch m1 with
      | .ok v m2 =>
        .next { m2 with stack := m2.stack ++ [.Bool (! isTruthy v)] }
      | .fail e => .fail e m1
      | .stuck => .stuck
    | .Add =>
      binOp ch m1 .Add (bytes "+") (fun a b => some (iwrap (a + b))) (· + ·) true
    | .Subtract =>
      binOp ch m1 .Subtract (bytes "-") (fun a b => some (iwrap (a - b))) (· - ·) false
    | .Multiply =>
      binOp ch m1 .Multiply (bytes "*") (fun a b => some (iwrap (a * b))) (· * ·) false
    | .Divide =>
      binOp ch m1 .Multiply (bytes "/")
        (fun a b => if b = 0 then none else some (iwrap (Int.tdiv a b))) (· / ·) false
    | .Modulo =>
      binOp ch m1 .Multiply (bytes "%")
        (fun a b => if b = 0 then none else some (iwrap (Int.tmod a b))) qmod false
    | .Equal =>
      match popVal ch m1 with
      | .stuck => .stuck
      | .fail e => .fail e m1
      | .ok a m2 =>
        match popVal ch m2 with
        | .stuck => .stuck
        | .fail e => .fail e m2
        | .ok b m3 =>
          match m3.heap.heq a b with
          | some r => .next { m3 with stack := m3.stack ++ [.Bool r] }
          | none =>
            .fail ⟨.IncorrectType (m3.heap.typeName a) (m3.heap.typeName b) op,
                   some (ch.getLine (m1.ip - 1)), none⟩ m3
    | .Greater => cmpOp ch m1 .Greater Heap.hgt false
    | .Less => cmpOp ch m1 .Less Heap.hlt false
    | .GreaterEqual => cmpOp ch m1 .GreaterEqual Heap.hlt true
    | .LessEqual => cmpOp ch m1 .LessEqual Heap.hgt true
    | .GetLocal =>
      match m1.stack.get? (ch.readShort m1.ip) with
      | some v => .next { m1 with stack := m1.stack ++ [v], ip := m1.ip + 2 }
      | none => .stuck
    | .SetLocal =>
      match popVal ch m1 with
      | .ok v m2 =>
        if ch.readShort m1.ip < m2.stack.length then
          .next { m2 with stack := m2.stack.set (ch.readShort m1.ip) v,
                          ip := m2.ip + 2 }
        else .stuck
      | .fail e => .fail e m1
      | .stuck => .stuck
    | .GetGlobal =>
      match ch.constants.get? (ch.readShort m1.ip) with
      | none => .stuck
      | some (.String name) =>
        match glookup m1.globals name with
        | some v => .next { m1 with stack := m1.stack ++ [v], ip := m1.ip + 2 }
        | none =>
          .fail ⟨.UndefinedVariable name, some (ch.getLine (m1.ip - 1)), none⟩ m1
      | some _ => .stuck
    | .SetGlobal =>
      match ch.constants.get? (ch.readShort m1.ip) with
      | none => .stuck
      | some (.String name) =>
        match popVal ch m1 with
        | .ok v m2 =>
          let (old, g') := ginsert m2.globals name v
          if old = none then
            .fail ⟨.UndefinedVariable name, some (ch.getLine (m1.ip - 1)), none⟩
              { m2 with globals := g' }
          else .next { m2 with globals := g', ip := m2.ip + 2 }
        | .fail e => .fail e m1
        | .stuck => .stuck
      | some _ => .next m1
    | .DeclareGlobal =>
      match ch.constants.get? (ch.readShort m1.ip) with
      | none => .stuck
      | some (.String name) =>
        match popVal ch m1 with
        | .ok v m2 =>
          let (_, g') := ginsert m2.globals name v
          .next { m2 with globals := g', ip := m2.ip + 2 }
        | .fail e => .fail e m1
        | .stuck => .stuck
      | some _ => .stuck
    | .Assert =>
      match popVal ch m1 with
      | .ok v m2 =>
        if ¬ isTruthy v then
          .fail ⟨.AssertFailed, some (ch.getLine (m1.ip - 1)), none⟩ m2
        else .next m2
      | .fail e => .fail e m1
      | .stuck => .stuck
    | .Jump => .stuck
    | .JumpFalse => .stuck

/-- Result of running a chunk: terminal constant, runtime error (with the
machine as the `&mut self` left it), Rust panic, or driver fuel exhaustion. -/
inductive RunOut where
  | ok (c : Constant)
  | fail (e : PiccoloError) (m : Machine)
  | stuck
  | fuelOut
deriving DecidableEq

/-- The `while self.ip < chunk.data.len()` loop of `Machine::interpret`; on
exit, pop the top of stack (or `Nil`) and convert it to a constant. -/
def interpretLoop : Nat → Chunk → Machine → RunOut
  | 0, _, _ => .fuelOut
  | fuel + 1, ch, m =>
    if m.ip < ch.data.length then
      match stepInstr ch m with
      | .next m' => interpretLoop fuel ch m'
      | .halt c => .ok c
      | .fail e m' => .fail e m'
      | .stuck => .stuck
    else .ok (m.heap.valueIntoConstant (m.stack.getLast?.getD .Nil))

/-- `Machine::new().interpret(chunk)`. -/
def interpret (ch : Chunk) (fuel : Nat) : RunOut :=
  interpretLoop fuel ch Machine.new

/-! ## AST

Modelled from the spec (§3): the compiler's `ast.rs`/parser are absent from
the snapshot; the constructors mirror the visitor signatures in
`src/compiler/emitter.rs`.  The call/new/get/set/index/func expressions are
stubs whose emitter visitors are `todo!()`; their payloads are elided. -/

inductive Expr where
  | Atom (token : Token)
  | Paren (value : Expr)
  | Variable (name : Token)
  | Unary (op : Token) (rhs : Expr)
  | Binary (lhs : Expr) (op : Token) (rhs : Expr)
  | Logical (lhs : Expr) (op : Token) (rhs : Expr)
  | Call (paren : Token)
  | New (name : Token)
  | Get (name : Token)
  | SetE (name : Token)
  | Index (rb : Token)
  | Func (name : Token)
deriving DecidableEq

/-- Statements (`Stmt::Expr` is written `ExprStmt` to avoid clashing with the
expression type). -/
inductive Stmt where
  | ExprStmt (expr : Expr)
  | Assignment (name : Token) (op : Token) (value : Expr)
  | Block (endTok : Token) (body : List Stmt)
  | If (cond : Expr) (doTok : Token) (thenB : List Stmt)
       (elseB : Option (List Stmt)) (endTok : Token)
  | While (cond : Expr) (body : List Stmt)
  | For (name : Token) (iter : Expr) (body : List Stmt)
  | Func (name : Token) (body : List Stmt)
  | Retn (keyword : Token) (value : Option Expr)
  | Assert (keyword : Token) (value : Expr)
  | Data (name : Token)

/-! ## Emitter — from `src/compiler/emitter.rs` -/

/-- `Emitter { chunk, strings, identifiers, scope_depth, locals }`.  The
string/identifier pools and `locals` are Rust collections modelled as
association lists (`locals` in `Vec` push order: slot = position). -/
structure Emitter where
  chunk : Chunk
  strings : List (Str × Nat)
  identifiers : List (Str × Nat)
  scope_depth : Nat
  locals : List (Str × Nat)
deriving DecidableEq

def Emitter.new (ch : Chunk) : Emitter := ⟨ch, [], [], 0, []⟩

/-- Assoc-list lookup for the `strings`/`identifiers` pools. -/
def slookup : List (Str × Nat) → Str → Option Nat
  | [], _ => none
  | (k, i) :: t, n => if k = n then some i else slookup t n

/-- `get_local_slot`: index of the topmost (most recently pushed) local with
this name — `locals.iter().enumerate().rev()`. -/
def findSlotRev : List (Str × Nat) → Str → Option Nat
  | [], _ => none
  | (k, _) :: t, n =>
    match findSlotRev t n with
    | some i => some (i + 1)
    | none => if k = n then some 0 else none

def getLocalSlot (em : Emitter) (name : Str) : Option Nat :=
  findSlotRev em.locals name

/-- `get_local_depth`: depth of the topmost local with this name. -/
def findDepthRev : List (Str × Nat) → Str → Option Nat
  | [], _ => none
  | (k, d) :: t, n =>
    match findDepthRev t n with
    | some d' => some d'
    | none => if k = n then some d else none

def getLocalDepth (em : Emitter) (name : Str) : Option Nat :=
  findDepthRev em.locals name

/-- `make_ident`: intern an identifier name in the constant pool. -/
def makeIdent (em : Emitter) (name : Str) : Nat × Emitter :=
  match slookup em.identifiers name with
  | some i => (i, em)
  | none =>
    let (ch', idx) := em.chunk.makeConstant (.String name)
    (idx, { em with chunk := ch', identifiers := em.identifiers ++ [(name, idx)] })

/-- `get_ident`: look up an already-interned name, else `UndefinedVariable`
at the token's line. -/
def getIdent (em : Emitter) (name : Token) : Except PiccoloError Nat :=
  match slookup em.identifiers name.lexeme with
  | some i => .ok i
  | none => .error ⟨.UndefinedVariable name.lexeme, some name.line, none⟩

/-- `Constant::try_from(Token)` (in the absent `value.rs`): literal tokens
only; string lexemes are unquoted (escape processing is not modelled — no
claim depends on it). -/
def constantTryFrom (t : Token) : Option Constant :=
  match t.kind with
  | .Integer i => some (.Integer i)
  | .Double d => some (.Double d)
  | .String => some (.String ((t.lexeme.drop 1).dropLast))
  | _ => none

/-- Result of an emitter visit: success, compile error (the `&mut self`
emitter keeps its state on `Err`), panic (`todo!`/`unreachable!`/`unwrap`),
or recursion fuel exhaustion (never hit with ample fuel). -/
inductive EmitOut where
  | ok (em : Emitter)
  | fail (e : PiccoloError) (em : Emitter)
  | stuck
  | fuelOut
deriving DecidableEq

/-- Sequencing of emitter visits: run `f` on success, propagate failure,
panic and fuel exhaustion (the `?` operator on the visitor results). -/
def EmitOut.andThen (r : EmitOut) (f : Emitter → EmitOut) : EmitOut :=
  match r with
  | .ok em => f em
  | r => r

/-- `visit_atom`. -/
def visitAtom (t : Token) (em : Emitter) : EmitOut :=
  if t.kind = .String then
    match slookup em.strings t.lexeme with
    | some i => .ok { em with chunk := em.chunk.writeArgU16 .Constant i t.line }
    | none =>
      match constantTryFrom t with
      | some c =>
        let (ch', i) := em.chunk.makeConstant c
        .ok { em with chunk := ch'.writeArgU16 .Constant i t.line,
                      strings := em.strings ++ [(t.lexeme, i)] }
      | none => .stuck
  else if t.kind = .Nil then .ok { em with chunk := em.chunk.writeU8 .Nil t.line }
  else if t.kind = .True then .ok { em with chunk := em.chunk.writeU8 .True t.line }
  else if t.kind = .False then .ok { em with chunk := em.chunk.writeU8 .False t.line }
  else
    match constantTryFrom t with
    | some c =>
      let (ch', i) := em.chunk.makeConstant c
      .ok { em with chunk := ch'.writeArgU16 .Constant i t.line }
    | none => .stuck

/-- `visit_variable`: local slot if resolvable, else interned global. -/
def visitVariable (n : Token) (em : Emitter) : EmitOut :=
  match getLocalSlot em n.lexeme with
  | some idx => .ok { em with chunk := em.chunk.writeArgU16 .GetLocal idx n.line }
  | none =>
    match getIdent em n with
    | .ok i => .ok { em with chunk := em.chunk.writeArgU16 .GetGlobal i n.line }
    | .error e => .fail e em

/-- `visit_expr` (the `ExprVisitor` impl).  Stub visitors are `todo!()`. -/
def visitExpr : Expr → Emitter → EmitOut
  | .Atom t, em => visitAtom t em
  | .Paren v, em => visitExpr v em
  | .Variable n, em => visitVariable n em
  | .Unary op rhs, em =>
    (visitExpr rhs em).andThen fun em1 =>
      if op.kind = .Not then
        .ok { em1 with chunk := em1.chunk.writeU8 .Not op.line }
      else if op.kind = .Minus then
        .ok { em1 with chunk := em1.chunk.writeU8 .Negate op.line }
      else .stuck
  | .Binary lhs op rhs, em =>
    (visitExpr lhs em).andThen fun em1 =>
      (visitExpr rhs em1).andThen fun em2 =>
        if op.kind = .Plus then
          .ok { em2 with chunk := em2.chunk.writeU8 .Add op.line }
        else if op.kind = .Minus then
          .ok { em2 with chunk := em2.chunk.writeU8 .Subtract op.line }
        else if op.kind = .Divide then
          .ok { em2 with chunk := em2.chunk.writeU8 .Divide op.line }
        else if op.kind = .Multiply then
          .ok { em2 with chunk := em2.chunk.writeU8 .Multiply op.line }
        else if op.kind = .Equal then
          .ok { em2 with chunk := em2.chunk.writeU8 .Equal op.line }
        else if op.kind = .NotEqual then
          .ok { em2 with chunk := (em2.chunk.writeU8 .Equal op.line).writeU8 .Not op.line }
        else if op.kind = .Greater then
          .ok { em2 with chunk := em2.chunk.writeU8 .Greater op.line }
        else if op.kind = .GreaterEqual then
          .ok { em2 with chunk := em2.chunk.writeU8 .GreaterEqual op.line }
        else if op.kind = .Less then
          .ok { em2 with chunk := em2.chunk.writeU8 .Less op.line }
        else if op.kind = .LessEqual then
          .ok { em2 with chunk := em2.chunk.writeU8 .LessEqual op.line }
        else if op.kind = .Modulo then
          .ok { em2 with chunk := em2.chunk.writeU8 .Modulo op.line }
        else .stuck
  | .Logical lhs _ rhs, em =>
    (visitExpr lhs em).andThen fun em1 => visitExpr rhs em1
  | .Call _, _ => .stuck
  | .New _, _ => .stuck
  | .Get _, _ => .stuck
  | .SetE _, _ => .stuck
  | .Index _, _ => .stuck
  | .Func _, _ => .stuck

/-- `visit_assignment`. -/
def visitAssignment (name op : Token) (value : Expr) (em : Emitter) : EmitOut :=
  (visitExpr value em).andThen fun em1 =>
    if 0 < em1.scope_depth then
      if op.kind = .Assign then
        match getLocalSlot em1 name.lexeme with
        | some idx =>
          .ok { em1 with chunk := em1.chunk.writeArgU16 .SetLocal idx op.line }
        | none =>
          match getIdent em1 name with
          | .ok i =>
            .ok { em1 with chunk := em1.chunk.writeArgU16 .SetGlobal i name.line }
          | .error e => .fail e em1
      else if op.kind = .Declare then
        match getLocalDepth em1 name.lexeme with
        | some idx =>
          if idx ≠ em1.scope_depth then
            .ok { em1 with locals := em1.locals ++ [(name.lexeme, em1.scope_depth)] }
          else
            -- `self.locals[idx as usize - 1].0`: the message indexes `locals`
            -- by the *depth*, not by the matching slot (direct Vec index:
            -- out of bounds panics)
            if idx - 1 < em1.locals.length then
              .fail ⟨.SyntaxError, some name.line,
                     some (bytes "cannot shadow local variable '" ++
                           (em1.locals.getD (idx - 1) ([], 0)).1 ++ bytes "'")⟩ em1
            else .stuck
        | none =>
          .ok { em1 with locals := em1.locals ++ [(name.lexeme, em1.scope_depth)] }
      else .ok em1
    else if op.kind = .Assign then
      match getIdent em1 name with
      | .ok idx =>
        .ok { em1 with chunk := em1.chunk.writeArgU16 .SetGlobal idx name.line }
      | .error e => .fail e em1
    else if op.kind = .Declare then
      let (idx, em2) := makeIdent em1 name.lexeme
      .ok { em2 with chunk := em2.chunk.writeArgU16 .DeclareGlobal idx name.line }
    else .ok em1

/-- The scope-exit loop of `visit_block`:
`while !locals.is_empty() && locals.last().1 > scope_depth { write Pop; pop }`
(fuel `|locals| + 1` is always enough — each iteration drops one entry). -/
def popLocalsF : Nat → Nat → Emitter → Emitter
  | 0, _, em => em
  | fuel + 1, line, em =>
    match em.locals.getLast? with
    | some p =>
      if em.scope_depth < p.2 then
        popLocalsF fuel line
          { em with chunk := em.chunk.writeU8 .Pop line,
                    locals := em.locals.dropLast }
      else em
    | none => em

def popLocals (line : Nat) (em : Emitter) : Emitter :=
  popLocalsF (em.locals.length + 1) line em

mutual

/-- `visit_*` for statements (the `StmtVisitor` impl); fuel bounds the
mutual recursion depth (structurally unbounded through statement lists). -/
def visitStmt : Nat → Stmt → Emitter → EmitOut
  | 0, _, _ => .fuelOut
  | fuel + 1, st, em =>
    match st with
    | .ExprStmt e =>
      -- the source hardcodes line 1 for the statement's Pop (`// TODO: line`)
      (visitExpr e em).andThen fun em1 =>
        .ok { em1 with chunk := em1.chunk.writeU8 .Pop 1 }
    | .Assignment name op value => visitAssignment name op value em
    | .Block endTok body => visitBlock fuel endTok body em
    | .If cond doTok thenB elseB endTok =>
      visitIf fuel cond doTok thenB elseB endTok em
    | .While _ _ => .stuck
    | .For _ _ _ => .stuck
    | .Func _ _ => .stuck
    | .Retn kw value =>
      ((match value with
        | some e => visitExpr e em
        | none => .ok em) : EmitOut).andThen fun em1 =>
        .ok { em1 with chunk := em1.chunk.writeU8 .Return kw.line }
    | .Assert kw value =>
      (visitExpr value em).andThen fun em1 =>
        .ok { em1 with chunk := em1.chunk.writeU8 .Assert kw.line }
    | .Data _ => .stuck

def visitStmts : Nat → List Stmt → Emitter → EmitOut
  | 0, _, _ => .fuelOut
  | _ + 1, [], em => .ok em
  | fuel + 1, s :: rest, em =>
    (visitStmt fuel s em).andThen fun em1 => visitStmts fuel rest em1

/-- `visit_block`: open a scope, compile the body (`?` propagates the first
error, leaving the incremented `scope_depth` in place), close the scope and
pop its locals. -/
def visitBlock : Nat → Token → List Stmt → Emitter → EmitOut
  | 0, _, _, _ => .fuelOut
  | fuel + 1, endTok, body, em =>
    let em1 : Emitter := { em with scope_depth := em.scope_depth + 1 }
    (visitStmts fuel body em1).andThen fun em2 =>
      .ok (popLocals endTok.line { em2 with scope_depth := em2.scope_depth - 1 })

/-- `visit_if`: condition, `JumpFalse` placeholder, `Pop` on the truthy path,
then-block, `Jump` placeholder, patch `JumpFalse` here, optional else-block,
patch `Jump` here.  (No `Pop` is emitted at the else target.) -/
def visitIf : Nat → Expr → Token → List Stmt → Option (List Stmt) → Token →
    Emitter → EmitOut
  | 0, _, _, _, _, _, _ => .fuelOut
  | fuel + 1, cond, doTok, thenB, elseB, endTok, em =>
    (visitExpr cond em).andThen fun em1 =>
      let (ch1, condFalse) := em1.chunk.writeJump .JumpFalse doTok.line
      let ch2 := ch1.writeU8 .Pop doTok.line
      (visitBlock fuel endTok thenB { em1 with chunk := ch2 }).andThen fun em2 =>
        let (ch3, condTrue) := em2.chunk.writeJump .Jump doTok.line
        let em3 : Emitter := { em2 with chunk := ch3.patchJump condFalse }
        ((match elseB with
          | some b => visitBlock fuel endTok b em3
          | none => .ok em3) : EmitOut).andThen fun em4 =>
          .ok { em4 with chunk := em4.chunk.patchJump condTrue }

end

/-- Result of `Emitter::compile`. -/
inductive CompOut where
  | ok (ch : Chunk)
  | fail (errs : List PiccoloError)
  | stuck
  | fuelOut
deriving DecidableEq

/-- The statement loop of `Emitter::compile`: accumulate errors, continuing
to the next top-level statement after each. -/
def compileLoop : Nat → List Stmt → Emitter → List PiccoloError → CompOut
  | _, [], em, errs => if errs = [] then .ok em.chunk else .fail errs
  | fuel, s :: rest, em, errs =>
    match visitStmt fuel s em with
    | .ok em1 => compileLoop fuel rest em1 errs
    | .fail e em1 => compileLoop fuel rest em1 (errs ++ [e])
    | .stuck => .stuck
    | .fuelOut => .fuelOut

/-- `Emitter::new(Chunk::default()).compile(stmts)`. -/
def compile (fuel : Nat) (stmts : List Stmt) : CompOut :=
  compileLoop fuel stmts (Emitter.new Chunk.empty) []

/-- Compile a program and run the chunk on a fresh machine. -/
def compileAndRun (stmts : List Stmt) (fuel : Nat) : Option RunOut :=
  match compile fuel stmts with
  | .ok ch => some (interpret ch fuel)
  | _ => none

/-! ## Concrete programs used by the claims -/

/-- Token builder for concrete ASTs. -/
def tok (k : TokenKind) (lex : String) (line : Nat) : Token := ⟨k, bytes lex, line⟩

/-- `if true do 1 end` (spec §4.2 parse shape). -/
def progIf : List Stmt :=
  [ .If (.Atom (tok .True "true" 1)) (tok .Do "do" 1)
        [.ExprStmt (.Atom (tok (.Integer 1) "1" 1))] none (tok .End "end" 1) ]

/-- `if true do 1 else 2 end`. -/
def progIfElse : List Stmt :=
  [ .If (.Atom (tok .True "true" 1)) (tok .Do "do" 1)
        [.ExprStmt (.Atom (tok (.Integer 1) "1" 1))]
        (some [.ExprStmt (.Atom (tok (.Integer 2) "2" 1))]) (tok .End "end" 1) ]

/-- `a := 10⏎a = a + 5⏎a`. -/
def progA : List Stmt :=
  [ .Assignment (tok .Identifier "a" 1) (tok .Declare ":=" 1)
      (.Atom (tok (.Integer 10) "10" 1)),
    .Assignment (tok .Identifier "a" 2) (tok .Assign "=" 2)
      (.Binary (.Variable (tok .Identifier "a" 2)) (tok .Plus "+" 2)
        (.Atom (tok (.Integer 5) "5" 2))),
    .ExprStmt (.Variable (tok .Identifier "a" 3)) ]

/-- `1 + true`. -/
def progAddBool : List Stmt :=
  [ .ExprStmt (.Binary (.Atom (tok (.Integer 1) "1" 1)) (tok .Plus "+" 1)
      (.Atom (tok .True "true" 1))) ]

/-- `do x := 1  y := 2  y := 3 end` — the third statement shadows `y`. -/
def progShadow : Stmt :=
  .Block (tok .End "end" 4)
    [ .Assignment (tok .Identifier "x" 1) (tok .Declare ":=" 1)
        (.Atom (tok (.Integer 1) "1" 1)),
      .Assignment (tok .Identifier "y" 2) (tok .Declare ":=" 2)
        (.Atom (tok (.Integer 2) "2" 2)),
      .Assignment (tok .Identifier "y" 3) (tok .Declare ":=" 3)
        (.Atom (tok (.Integer 3) "3" 3)) ]

/-- A block whose single statement fails to compile (`q` is undefined). -/
def progBadBlockBody : List Stmt := [.ExprStmt (.Variable (tok .Identifier "q" 1))]

/-- A block that declares one local and compiles successfully. -/
def progGoodBlockBody : List Stmt :=
  [ .Assignment (tok .Identifier "v" 1) (tok .Declare ":=" 1)
      (.Atom (tok (.Integer 1) "1" 1)) ]

/-- The chunk the emitter produces for `if true do 1 end`. -/
def chunkIf : Chunk :=
  match compile 100 progIf with
  | .ok ch => ch
  | _ => Chunk.empty

/-- The chunk the emitter produces for `if true do 1 else 2 end`. -/
def chunkIfElse : Chunk :=
  match compile 100 progIfElse with
  | .ok ch => ch
  | _ => Chunk.empty

/-- The chunk the emitter produces for `a := 10⏎a = a + 5⏎a`. -/
def chunkA : Chunk :=
  match compile 100 progA with
  | .ok ch => ch
  | _ => Chunk.empty

/-! ## Claims -/

/-- C1: the claimed if/else discipline — condition popped on both paths,
stack height restored, and "the VM executes every Jump/JumpFalse instruction
the emitter writes" — fails on the code: the emitter does emit `JumpFalse`
(byte 1 of the compiled `if true do 1 end`), but `Machine::interpret`'s
dispatch has no arm for `Jump`/`JumpFalse`, so running the compiled chunk
gets stuck at ip 1; moreover in `if true do 1 else 2 end` the `JumpFalse`
target (the first instruction of the else path, at offset
`readShort 2 + 4`) is `Constant`, not the `Pop` the discipline requires, so
the condition would be left on the stack on the else path. -/
theorem emitted_if_cannot_execute :
    compile 100 progIf = .ok chunkIf ∧
    chunkIf.data.getD 1 0 = Opcode.toByte .JumpFalse ∧
    interpret chunkIf 100 = .stuck ∧
    compile 100 progIfElse = .ok chunkIfElse ∧
    chunkIfElse.data.getD (chunkIfElse.readShort 2 + (2 + 2)) 0 =
      Opcode.toByte .Constant := by
  decide

/-- C2: interpreting `a := 10⏎a = a + 5⏎a` succeeds with terminal value
`Integer 15`; the emitted chunk interns `"a"` once (constant 1) and uses
`DeclareGlobal` (byte 22) for `:=` and `SetGlobal` (byte 21) for `=`, and the
final `GetGlobal`/`Pop` returns the stored value as the program result. -/
theorem global_declare_assign_read_yields_15 :
    compileAndRun progA 100 = some (.ok (.Integer 15)) ∧
    compile 100 progA = .ok chunkA ∧
    chunkA.data =
      [1, 0, 0, 22, 1, 0, 20, 1, 0, 1, 2, 0, 6, 21, 1, 0, 20, 1, 0, 17] ∧
    chunkA.constants = [.Integer 10, .String (bytes "a"), .Integer 5] := by
  decide

/-- C6: compiling `do x := 1  y := 2  y := 3 end` does raise a shadowing
error at the redeclaration's line (3), but the message names `x` — the
source indexes `locals` by the scope depth (`locals[idx - 1]` where `idx` is
the depth returned by `get_local_depth`), not by the matching slot — while
the shadowed variable is `y`. -/
theorem shadow_error_names_wrong_variable :
    visitStmt 100 progShadow (Emitter.new Chunk.empty) =
      .fail ⟨.SyntaxError, some 3,
             some (bytes "cannot shadow local variable 'x'")⟩
        ⟨⟨[1, 0, 0, 1, 1, 0, 1, 2, 0], [1, 1, 1, 2, 2, 2, 3, 3, 3],
          [.Integer 1, .Integer 2, .Integer 3]⟩,
         [], [], 1, [(bytes "x", 1), (bytes "y", 1)]⟩ := by
  decide

/-- C9: `scan_tokens` is not total: on the one-byte source `#` (a line
comment not terminated by a newline) the comment loop of `slurp_whitespace`
calls `advance` at end of input — `peek` returns NUL, which is not `\n` —
and indexes one past the end of the source: a Rust panic, not a token list
or scan error. -/
theorem comment_at_eof_panics : scanTokens (bytes "#") = .stuck := by
  decide

/-- C5 (counterexample): when a statement inside a `do … end` block fails to
compile (`do q end` with `q` undefined), `visit_block`'s `?` propagates the
error before `scope_depth` is decremented: the emitter is left with
`scope_depth = 1` although it was 0 before the block, so the error does
leave the scope state inconsistent for the next top-level statement. -/
theorem block_error_leaves_scope_open :
    visitBlock 100 (tok .End "end" 2) progBadBlockBody (Emitter.new Chunk.empty) =
      .fail ⟨.UndefinedVariable (bytes "q"), some 1, none⟩
        ⟨Chunk.empty, [], [], 1, []⟩ ∧
    (Emitter.new Chunk.empty).scope_depth = 0 := by
  decide

/-! ## Helper lemmas for the general claims -/

theorem ofByte_toByte (op : Opcode) : ofByte op.toByte = some op := by
  cases op <;> rfl

theorem getLast?_snoc {α : Type} (s : List α) (v : α) :
    (s ++ [v]).getLast? = some v := by
  simp

theorem dropLast_snoc {α : Type} (s : List α) (v : α) :
    (s ++ [v]).dropLast = s := by
  simp

theorem popVal_snoc (ch : Chunk) (m : Machine) (s : List Value) (v : Value)
    (h : m.stack = s ++ [v]) :
    popVal ch m = .ok v { m with stack := s } := by
  rw [popVal, h, getLast?_snoc, dropLast_snoc]

theorem glookup_append_absent (g : List (Str × Value)) (n : Str) (v : Value)
    (h : glookup g n = none) : glookup (g ++ [(n, v)]) n = some v := by
  induction g with
  | nil => simp [glookup]
  | cons p t ih =>
    obtain ⟨k, w⟩ := p
    by_cases hk : k = n
    · rw [glookup, if_pos hk] at h
      cases h
    · rw [glookup, if_neg hk] at h
      rw [List.cons_append, glookup, if_neg hk]
      exact ih h

theorem ginsert_absent (g : List (Str × Value)) (n : Str) (v : Value)
    (h : glookup g n = none) : ginsert g n v = (none, g ++ [(n, v)]) := by
  induction g with
  | nil => rfl
  | cons p t ih =>
    obtain ⟨k, w⟩ := p
    by_cases hk : k = n
    · rw [glookup, if_pos hk] at h
      cases h
    · rw [glookup, if_neg hk] at h
      rw [ginsert, if_neg hk, ih h]
      simp

theorem ginsert_last (g : List (Str × Value)) (n : Str) (v v2 : Value)
    (h : glookup g n = none) :
    ginsert (g ++ [(n, v)]) n v2 = (some v, g ++ [(n, v2)]) := by
  induction g with
  | nil => simp [ginsert]
  | cons p t ih =>
    obtain ⟨k, w⟩ := p
    by_cases hk : k = n
    · rw [glookup, if_pos hk] at h
      cases h
    · rw [glookup, if_neg hk] at h
      rw [List.cons_append, ginsert, if_neg hk, ih h]
      simp

/-- C4: when a run completes, the terminal value is the value popped by a
`Pop` that left `ip` at `|data|` (converted to a constant), else the top of
the stack when `ip` reaches `|data|`, else `Nil`. -/
theorem terminal_value_rule :
    (∀ (f : Nat) (ch : Chunk) (m : Machine), ch.data.length ≤ m.ip →
       interpretLoop (f + 1) ch m =
         .ok (m.heap.valueIntoConstant (m.stack.getLast?.getD .Nil))) ∧
    (∀ (f : Nat) (ch : Chunk) (m : Machine) (s : List Value) (v : Value),
       m.ip + 1 = ch.data.length →
       ch.data.getD m.ip 0 = Opcode.toByte .Pop →
       m.stack = s ++ [v] →
       interpretLoop (f + 1) ch m = .ok (m.heap.valueIntoConstant v)) := by
  constructor
  · intro f ch m h
    rw [interpretLoop, if_neg (by omega)]
  · intro f ch m s v hip hbyte hstack
    rw [interpretLoop, if_pos (by omega)]
    rw [stepInstr]
    simp only [hbyte, ofByte_toByte]
    rw [popVal_snoc ch ⟨m.ip + 1, m.globals, m.stack, m.heap⟩ s v hstack]
    simp only [hip]
    simp

/-- C10: executing `SetGlobal` for a name absent from the globals raises
`UndefinedVariable`, but only after inserting the popped value: the global
ends up defined with the assigned value, and re-running the same
instruction (same `ip`, a value back on the stack) then succeeds. -/
theorem setglobal_error_still_inserts :
    ∀ (ch : Chunk) (m : Machine) (name : Str) (v v2 : Value) (s : List Value),
      ch.data.getD m.ip 0 = Opcode.toByte .SetGlobal →
      ch.constants.get? (ch.readShort (m.ip + 1)) = some (.String name) →
      glookup m.globals name = none →
      m.stack = s ++ [v] →
      stepInstr ch m =
        .fail ⟨.UndefinedVariable name, some (ch.getLine m.ip), none⟩
          { m with ip := m.ip + 1, stack := s,
                   globals := m.globals ++ [(name, v)] } ∧
      glookup (m.globals ++ [(name, v)]) name = some v ∧
      stepInstr ch { m with stack := s ++ [v2],
                            globals := m.globals ++ [(name, v)] } =
        .next { m with ip := m.ip + 3, stack := s,
                       globals := m.globals ++ [(name, v2)] } := by
  intro ch m name v v2 s hbyte hconst habsent hstack
  refine ⟨?_, glookup_append_absent _ _ _ habsent, ?_⟩
  · rw [stepInstr]
    simp only [hbyte, ofByte_toByte, hconst]
    rw [popVal_snoc ch ⟨m.ip + 1, m.globals, m.stack, m.heap⟩ s v hstack]
    simp [ginsert_absent m.globals name v habsent]
  · rw [stepInstr]
    simp only [hbyte, ofByte_toByte, hconst]
    rw [popVal_snoc ch ⟨m.ip + 1, m.globals ++ [(name, v)], s ++ [v2], m.heap⟩
          s v2 rfl]
    simp [ginsert_last m.globals name v v2 habsent]

/-- Witness for C4: an empty chunk terminates with `Nil`; a one-`Pop` chunk
with `Integer 3` on the stack returns `Integer 3` through the `Pop`-at-end
path. -/
theorem terminal_value_rule_witness :
    interpretLoop 1 Chunk.empty Machine.new = .ok .Nil ∧
    interpretLoop 1 ⟨[17], [1], []⟩ ⟨0, [], [.Integer 3], ⟨[]⟩⟩ =
      .ok (.Integer 3) := by
  exact ⟨terminal_value_rule.1 0 Chunk.empty Machine.new (by decide),
         terminal_value_rule.2 0 ⟨[17], [1], []⟩ ⟨0, [], [.Integer 3], ⟨[]⟩⟩
           [] (.Integer 3) (by decide) (by decide) (by decide)⟩

/-- Witness for C10 at a concrete chunk (`SetGlobal` of the undeclared `g`
with `Integer 7` on the stack). -/
theorem setglobal_error_still_inserts_witness :
    stepInstr ⟨[21, 1, 0], [1, 1, 1], [.Nil, .String (bytes "g")]⟩
        ⟨0, [], [.Integer 7], ⟨[]⟩⟩ =
      .fail ⟨.UndefinedVariable (bytes "g"), some 1, none⟩
        ⟨1, [(bytes "g", .Integer 7)], [], ⟨[]⟩⟩ ∧
    glookup [(bytes "g", .Integer 7)] (bytes "g") = some (.Integer 7) ∧
    stepInstr ⟨[21, 1, 0], [1, 1, 1], [.Nil, .String (bytes "g")]⟩
        ⟨0, [(bytes "g", .Integer 7)], [.Integer 9], ⟨[]⟩⟩ =
      .next ⟨3, [(bytes "g", .Integer 9)], [], ⟨[]⟩⟩ := by
  have h := setglobal_error_still_inserts
    ⟨[21, 1, 0], [1, 1, 1], [.Nil, .String (bytes "g")]⟩
    ⟨0, [], [.Integer 7], ⟨[]⟩⟩ (bytes "g") (.Integer 7) (.Integer 9) []
    (by decide) (by decide) (by decide) (by decide)
  exact ⟨h.1, h.2.1, h.2.2⟩

/-- Evaluation of a comparison arm on a stack ending in `lhs, rhs`. -/
theorem cmpOp_eval (ch : Chunk) (m : Machine) (op : Opcode)
    (sel : Heap → Value → Value → Option Bool) (neg : Bool)
    (s : List Value) (lhs rhs : Value) (h : m.stack = s ++ [lhs, rhs]) :
    cmpOp ch m op sel neg =
      if isBool rhs ∨ isBool lhs then
        .fail ⟨.IncorrectType (bytes "that isn't bool") (bytes "bool") op,
               some (ch.getLine (m.ip - 1)), none⟩ { m with stack := s }
      else
        match sel m.heap lhs rhs with
        | some b => .next { m with stack := s ++ [.Bool (if neg then ! b else b)] }
        | none =>
          .fail ⟨.IncorrectType (m.heap.typeName lhs) (m.heap.typeName rhs) op,
                 some (ch.getLine (m.ip - 1)), none⟩ { m with stack := s } := by
  have h2 : m.stack = (s ++ [lhs]) ++ [rhs] := by simpa using h
  rw [cmpOp, popVal_snoc ch m (s ++ [lhs]) rhs h2]
  simp only [popVal_snoc ch ⟨m.ip, m.globals, s ++ [lhs], m.heap⟩ s lhs rfl]

/-- C7: `Greater`, `Less`, `GreaterEqual`, `LessEqual` raise `IncorrectType`
whenever either popped operand is a boolean; where the strict comparison is
defined, `GreaterEqual` pushes exactly the negation of what `Less` pushes on
the same operands (both dispatch the heap's `lt`), and `LessEqual` the
negation of `Greater` (both dispatch `gt`). -/
theorem comparison_bool_rejection_and_negation :
    (∀ (ch : Chunk) (m : Machine),
        ch.data.getD m.ip 0 = Opcode.toByte .Greater →
        stepInstr ch m = cmpOp ch { m with ip := m.ip + 1 } .Greater Heap.hgt false) ∧
    (∀ (ch : Chunk) (m : Machine),
        ch.data.getD m.ip 0 = Opcode.toByte .Less →
        stepInstr ch m = cmpOp ch { m with ip := m.ip + 1 } .Less Heap.hlt false) ∧
    (∀ (ch : Chunk) (m : Machine),
        ch.data.getD m.ip 0 = Opcode.toByte .GreaterEqual →
        stepInstr ch m = cmpOp ch { m with ip := m.ip + 1 } .GreaterEqual Heap.hlt true) ∧
    (∀ (ch : Chunk) (m : Machine),
        ch.data.getD m.ip 0 = Opcode.toByte .LessEqual →
        stepInstr ch m = cmpOp ch { m with ip := m.ip + 1 } .LessEqual Heap.hgt true) ∧
    (∀ (op : Opcode) (sel : Heap → Value → Value → Option Bool) (neg : Bool)
        (ch : Chunk) (m : Machine) (s : List Value) (lhs rhs : Value),
        m.stack = s ++ [lhs, rhs] → (isBool rhs ∨ isBool lhs) →
        cmpOp ch m op sel neg =
          .fail ⟨.IncorrectType (bytes "that isn't bool") (bytes "bool") op,
                 some (ch.getLine (m.ip - 1)), none⟩ { m with stack := s }) ∧
    (∀ (ch : Chunk) (m : Machine) (s : List Value) (lhs rhs : Value) (b : Bool),
        m.stack = s ++ [lhs, rhs] → isBool rhs = false → isBool lhs = false →
        m.heap.hlt lhs rhs = some b →
        cmpOp ch m .Less Heap.hlt false =
          .next { m with stack := s ++ [.Bool b] } ∧
        cmpOp ch m .GreaterEqual Heap.hlt true =
          .next { m with stack := s ++ [.Bool (! b)] }) ∧
    (∀ (ch : Chunk) (m : Machine) (s : List Value) (lhs rhs : Value) (b : Bool),
        m.stack = s ++ [lhs, rhs] → isBool rhs = false → isBool lhs = false →
        m.heap.hgt lhs rhs = some b →
        cmpOp ch m .Greater Heap.hgt false =
          .next { m with stack := s ++ [.Bool b] } ∧
        cmpOp ch m .LessEqual Heap.hgt true =
          .next { m with stack := s ++ [.Bool (! b)] }) := by
  refine ⟨?_, ?_, ?_, ?_, ?_, ?_, ?_⟩
  · intro ch m h
    rw [stepInstr]
    simp only [h, ofByte_toByte]
  · intro ch m h
    rw [stepInstr]
    simp only [h, ofByte_toByte]
  · intro ch m h
    rw [stepInstr]
    simp only [h, ofByte_toByte]
  · intro ch m h
    rw [stepInstr]
    simp only [h, ofByte_toByte]
  · intro op sel neg ch m s lhs rhs hs hb
    rw [cmpOp_eval ch m op sel neg s lhs rhs hs, if_pos hb]
  · intro ch m s lhs rhs b hs hbr hbl hsel
    constructor <;>
    · rw [cmpOp_eval ch m _ _ _ s lhs rhs hs,
          if_neg (by simp [hbr, hbl]), hsel]
      simp
  · intro ch m s lhs rhs b hs hbr hbl hsel
    constructor <;>
    · rw [cmpOp_eval ch m _ _ _ s lhs rhs hs,
          if_neg (by simp [hbr, hbl]), hsel]
      simp

/-- Witness for C7: at concrete operands — `Greater` on `true > 1` errors;
`Less`/`GreaterEqual` and `Greater`/`LessEqual` on `Integer 1, Integer 2`
push negated results. -/
theorem comparison_witness :
    cmpOp Chunk.empty ⟨1, [], [.Integer 1, .Bool true], ⟨[]⟩⟩ .Greater
        Heap.hgt false =
      .fail ⟨.IncorrectType (bytes "that isn't bool") (bytes "bool") .Greater,
             some 0, none⟩ ⟨1, [], [], ⟨[]⟩⟩ ∧
    cmpOp Chunk.empty ⟨1, [], [.Integer 1, .Integer 2], ⟨[]⟩⟩ .Less
        Heap.hlt false = .next ⟨1, [], [.Bool true], ⟨[]⟩⟩ ∧
    cmpOp Chunk.empty ⟨1, [], [.Integer 1, .Integer 2], ⟨[]⟩⟩ .GreaterEqual
        Heap.hlt true = .next ⟨1, [], [.Bool false], ⟨[]⟩⟩ ∧
    cmpOp Chunk.empty ⟨1, [], [.Integer 1, .Integer 2], ⟨[]⟩⟩ .Greater
        Heap.hgt false = .next ⟨1, [], [.Bool false], ⟨[]⟩⟩ ∧
    cmpOp Chunk.empty ⟨1, [], [.Integer 1, .Integer 2], ⟨[]⟩⟩ .LessEqual
        Heap.hgt true = .next ⟨1, [], [.Bool true], ⟨[]⟩⟩ := by
  have h1 := comparison_bool_rejection_and_negation.2.2.2.2.1 .Greater
    Heap.hgt false Chunk.empty ⟨1, [], [.Integer 1, .Bool true], ⟨[]⟩⟩ []
    (.Integer 1) (.Bool true) rfl (by decide)
  have h2 := comparison_bool_rejection_and_negation.2.2.2.2.2.1 Chunk.empty
    ⟨1, [], [.Integer 1, .Integer 2], ⟨[]⟩⟩ [] (.Integer 1) (.Integer 2) true
    rfl (by decide) (by decide) (by decide)
  have h3 := comparison_bool_rejection_and_negation.2.2.2.2.2.2 Chunk.empty
    ⟨1, [], [.Integer 1, .Integer 2], ⟨[]⟩⟩ [] (.Integer 1) (.Integer 2) false
    rfl (by decide) (by decide) (by decide)
  exact ⟨h1, h2.1, h2.2, h3.1, h3.2⟩

/-- The `Add` arm of the dispatch: `bin_op!(Opcode::Add, +, true)`. -/
def runAdd (ch : Chunk) (m : Machine) : Step :=
  binOp ch m .Add (bytes "+") (fun a b => some (iwrap (a + b))) (· + ·) true

/-- Evaluation of `bin_op!` on a stack ending in `lhs, rhs`. -/
theorem binOp_eval (ch : Chunk) (m : Machine) (errOp : Opcode) (opStr : Str)
    (iop : Int → Int → Option Int) (qop : ℚ → ℚ → ℚ) (concat : Bool)
    (s : List Value) (lhs rhs : Value) (h : m.stack = s ++ [lhs, rhs]) :
    binOp ch m errOp opStr iop qop concat =
      if isDouble lhs then
        if isDouble rhs ∨ isInteger rhs then
          .next { m with stack := s ++ [.Double (qop (toQ lhs) (toQ rhs))] }
        else
          .fail ⟨.IncorrectType (bytes "integer or double")
                  (bytes "double" ++ [32] ++ opStr ++ [32] ++ m.heap.typeName rhs)
                  errOp, some (ch.getLine m.ip), none⟩ { m with stack := s }
      else if isInteger lhs then
        if isInteger rhs then
          match iop (intOf lhs) (intOf rhs) with
          | some r => .next { m with stack := s ++ [.Integer r] }
          | none => .stuck
        else if isDouble rhs then
          .next { m with stack := s ++ [.Double (qop (toQ lhs) (toQ rhs))] }
        else
          .fail ⟨.IncorrectType (bytes "integer or double")
                  (bytes "integer" ++ [32] ++ opStr ++ [32] ++ m.heap.typeName rhs)
                  errOp, some (ch.getLine m.ip), none⟩ { m with stack := s }
      else if concat ∧ m.heap.isString lhs then
        .next { m with stack := s ++ [.Object m.heap.objects.length],
                       heap := ⟨m.heap.objects ++ [m.heap.fmt lhs ++ m.heap.fmt rhs]⟩ }
      else
        .fail ⟨.IncorrectType (bytes "integer or double")
                (m.heap.typeName lhs ++ [32] ++ opStr ++ [32] ++ m.heap.typeName rhs)
                errOp, some (ch.getLine m.ip), none⟩ { m with stack := s } := by
  rw [binOp, popVal_snoc ch m (s ++ [lhs]) rhs (by simpa using h)]
  simp only [popVal_snoc ch ⟨m.ip, m.globals, s ++ [lhs], m.heap⟩ s lhs rfl,
             Heap.alloc]

/-- C3: `Add` pops rhs then lhs; two integers push their integer sum, a
double with a numeric other operand pushes a double, a string lhs pushes a
new heap string `lhs ++ fmt rhs`; every other combination raises
`IncorrectType` — and `1 + true` fails with exp `"integer or double"`, got
`"integer + bool"`, op `Add`, on line 1. -/
theorem add_semantics :
    (∀ (ch : Chunk) (m : Machine),
        ch.data.getD m.ip 0 = Opcode.toByte .Add →
        stepInstr ch m = runAdd ch { m with ip := m.ip + 1 }) ∧
    (∀ (ch : Chunk) (m : Machine) (s : List Value) (a b : Int),
        m.stack = s ++ [.Integer a, .Integer b] →
        -2 ^ 63 ≤ a + b → a + b < 2 ^ 63 →
        runAdd ch m = .next { m with stack := s ++ [.Integer (a + b)] }) ∧
    (∀ (ch : Chunk) (m : Machine) (s : List Value) (x y : ℚ),
        m.stack = s ++ [.Double x, .Double y] →
        runAdd ch m = .next { m with stack := s ++ [.Double (x + y)] }) ∧
    (∀ (ch : Chunk) (m : Machine) (s : List Value) (x : ℚ) (b : Int),
        m.stack = s ++ [.Double x, .Integer b] →
        runAdd ch m = .next { m with stack := s ++ [.Double (x + (b : ℚ))] }) ∧
    (∀ (ch : Chunk) (m : Machine) (s : List Value) (a : Int) (y : ℚ),
        m.stack = s ++ [.Integer a, .Double y] →
        runAdd ch m = .next { m with stack := s ++ [.Double ((a : ℚ) + y)] }) ∧
    (∀ (ch : Chunk) (m : Machine) (s : List Value) (i : Nat) (rhs : Value),
        m.stack = s ++ [.Object i, rhs] → i < m.heap.objects.length →
        runAdd ch m =
          .next { m with stack := s ++ [.Object m.heap.objects.length],
                         heap := ⟨m.heap.objects ++
                           [m.heap.objects.getD i [] ++ m.heap.fmt rhs]⟩ }) ∧
    (∀ (ch : Chunk) (m : Machine) (s : List Value) (lhs rhs : Value),
        m.stack = s ++ [lhs, rhs] →
        (isDouble lhs || isInteger lhs) = true →
        isDouble rhs = false → isInteger rhs = false →
        runAdd ch m =
          .fail ⟨.IncorrectType (bytes "integer or double")
                  (m.heap.typeName lhs ++ [32] ++ bytes "+" ++ [32] ++
                   m.heap.typeName rhs) .Add,
                 some (ch.getLine m.ip), none⟩ { m with stack := s }) ∧
    (∀ (ch : Chunk) (m : Machine) (s : List Value) (lhs rhs : Value),
        m.stack = s ++ [lhs, rhs] →
        isDouble lhs = false → isInteger lhs = false →
        m.heap.isString lhs = false →
        runAdd ch m =
          .fail ⟨.IncorrectType (bytes "integer or double")
                  (m.heap.typeName lhs ++ [32] ++ bytes "+" ++ [32] ++
                   m.heap.typeName rhs) .Add,
                 some (ch.getLine m.ip), none⟩ { m with stack := s }) ∧
    compileAndRun progAddBool 100 =
      some (.fail ⟨.IncorrectType (bytes "integer or double")
                    (bytes "integer + bool") .Add, some 1, none⟩
              ⟨5, [], [], ⟨[]⟩⟩) := by
  refine ⟨?_, ?_, ?_, ?_, ?_, ?_, ?_, ?_, by decide⟩
  · intro ch m h
    rw [stepInstr]
    simp only [h, ofByte_toByte]
    rfl
  · intro ch m s a b hs h1 h2
    rw [runAdd, binOp_eval ch m .Add (bytes "+") _ _ true s _ _ hs]
    simp [isDouble, isInteger, intOf, iwrap_eq_self (a + b) h1 h2]
  · intro ch m s x y hs
    rw [runAdd, binOp_eval ch m .Add (bytes "+") _ _ true s _ _ hs]
    simp [isDouble, isInteger, toQ]
  · intro ch m s x b hs
    rw [runAdd, binOp_eval ch m .Add (bytes "+") _ _ true s _ _ hs]
    simp [isDouble, isInteger, toQ]
  · intro ch m s a y hs
    rw [runAdd, binOp_eval ch m .Add (bytes "+") _ _ true s _ _ hs]
    simp [isDouble, isInteger, toQ]
  · intro ch m s i rhs hs hi
    rw [runAdd, binOp_eval ch m .Add (bytes "+") _ _ true s _ _ hs]
    simp [isDouble, isInteger, Heap.isString, hi, Heap.fmt]
  · intro ch m s lhs rhs hs hl hdr hir
    rw [runAdd, binOp_eval ch m .Add (bytes "+") _ _ true s _ _ hs]
    cases lhs <;> simp_all [isDouble, isInteger, Heap.typeName]
  · intro ch m s lhs rhs hs hdl hil hsl
    rw [runAdd, binOp_eval ch m .Add (bytes "+") _ _ true s _ _ hs]
    simp [hdl, hil, hsl]

/-- Witness for C3 at concrete operands: `1 + 2`, `½ + ¼`, `½ + 2`,
`1 + ½`, `"ab" + 1`, `1 + true` (numeric error), `nil + 1` (non-numeric
error). -/
theorem add_semantics_witness :
    stepInstr ⟨[6], [1], []⟩ ⟨0, [], [.Integer 1, .Integer 2], ⟨[]⟩⟩ =
      runAdd ⟨[6], [1], []⟩ ⟨1, [], [.Integer 1, .Integer 2], ⟨[]⟩⟩ ∧
    runAdd Chunk.empty ⟨1, [], [.Integer 1, .Integer 2], ⟨[]⟩⟩ =
      .next ⟨1, [], [.Integer 3], ⟨[]⟩⟩ ∧
    runAdd Chunk.empty ⟨1, [], [.Double (1 / 2), .Double (1 / 4)], ⟨[]⟩⟩ =
      .next ⟨1, [], [.Double (3 / 4)], ⟨[]⟩⟩ ∧
    runAdd Chunk.empty ⟨1, [], [.Double (1 / 2), .Integer 2], ⟨[]⟩⟩ =
      .next ⟨1, [], [.Double (5 / 2)], ⟨[]⟩⟩ ∧
    runAdd Chunk.empty ⟨1, [], [.Integer 1, .Double (1 / 2)], ⟨[]⟩⟩ =
      .next ⟨1, [], [.Double (3 / 2)], ⟨[]⟩⟩ ∧
    runAdd Chunk.empty ⟨1, [], [.Object 0, .Integer 1], ⟨[bytes "ab"]⟩⟩ =
      .next ⟨1, [], [.Object 1], ⟨[bytes "ab", bytes "ab1"]⟩⟩ ∧
    runAdd Chunk.empty ⟨1, [], [.Integer 1, .Bool true], ⟨[]⟩⟩ =
      .fail ⟨.IncorrectType (bytes "integer or double") (bytes "integer + bool")
              .Add, some 0, none⟩ ⟨1, [], [], ⟨[]⟩⟩ ∧
    runAdd Chunk.empty ⟨1, [], [.Nil, .Integer 1], ⟨[]⟩⟩ =
      .fail ⟨.IncorrectType (bytes "integer or double") (bytes "nil + integer")
              .Add, some 0, none⟩ ⟨1, [], [], ⟨[]⟩⟩ := by
  refine ⟨add_semantics.1 ⟨[6], [1], []⟩ ⟨0, [], [.Integer 1, .Integer 2], ⟨[]⟩⟩
            (by decide),
          add_semantics.2.1 Chunk.empty _ [] 1 2 rfl (by decide) (by decide),
          ?_, ?_, ?_, ?_, ?_, ?_⟩
  · have h := add_semantics.2.2.1 Chunk.empty
      ⟨1, [], [.Double (1 / 2), .Double (1 / 4)], ⟨[]⟩⟩ [] (1 / 2) (1 / 4) rfl
    rw [h]
    norm_num
  · have h := add_semantics.2.2.2.1 Chunk.empty
      ⟨1, [], [.Double (1 / 2), .Integer 2], ⟨[]⟩⟩ [] (1 / 2) 2 rfl
    rw [h]
    norm_num
  · have h := add_semantics.2.2.2.2.1 Chunk.empty
      ⟨1, [], [.Integer 1, .Double (1 / 2)], ⟨[]⟩⟩ [] 1 (1 / 2) rfl
    rw [h]
    norm_num
  · have h := add_semantics.2.2.2.2.2.1 Chunk.empty
      ⟨1, [], [.Object 0, .Integer 1], ⟨[bytes "ab"]⟩⟩ [] 0 (.Integer 1) rfl
      (by decide)
    rw [h]
    decide
  · exact add_semantics.2.2.2.2.2.2.1 Chunk.empty
      ⟨1, [], [.Integer 1, .Bool true], ⟨[]⟩⟩ [] (.Integer 1) (.Bool true) rfl
      (by decide) (by decide) (by decide)
  · exact add_semantics.2.2.2.2.2.2.2.1 Chunk.empty
      ⟨1, [], [.Nil, .Integer 1], ⟨[]⟩⟩ [] .Nil (.Integer 1) rfl
      (by decide) (by decide) (by decide)

/-! ## Scope discipline of the emitter (C5) -/

/-- Well-formed emitter scope state: every local's depth is at most the
current `scope_depth` (holds for the fresh emitter and is preserved by
every successful statement). -/
def EmWF (em : Emitter) : Prop := ∀ p ∈ em.locals, p.2 ≤ em.scope_depth

theorem visitAtom_scope {t : Token} {em em' : Emitter}
    (h : visitAtom t em = .ok em') :
    em'.scope_depth = em.scope_depth ∧ em'.locals = em.locals := by
  unfold visitAtom at h
  repeat' split at h
  all_goals cases h
  all_goals exact ⟨rfl, rfl⟩

theorem visitVariable_scope {n : Token} {em em' : Emitter}
    (h : visitVariable n em = .ok em') :
    em'.scope_depth = em.scope_depth ∧ em'.locals = em.locals := by
  unfold visitVariable at h
  repeat' split at h
  all_goals cases h
  all_goals exact ⟨rfl, rfl⟩

theorem andThen_ok {r : EmitOut} {f : Emitter → EmitOut} {em' : Emitter}
    (h : r.andThen f = .ok em') : ∃ em1, r = .ok em1 ∧ f em1 = .ok em' := by
  cases r with
  | ok em1 => exact ⟨em1, rfl, h⟩
  | fail e em1 => cases h
  | stuck => cases h
  | fuelOut => cases h

set_option maxHeartbeats 2000000 in
theorem visitExpr_scope (e : Expr) : ∀ em em', visitExpr e em = .ok em' →
    em'.scope_depth = em.scope_depth ∧ em'.locals = em.locals := by
  induction e with
  | Atom t =>
    intro em em' h
    rw [visitExpr] at h
    exact visitAtom_scope h
  | Paren v ih =>
    intro em em' h
    rw [visitExpr] at h
    exact ih em em' h
  | Variable n =>
    intro em em' h
    rw [visitExpr] at h
    exact visitVariable_scope h
  | Unary op rhs ih =>
    intro em em' h
    rw [visitExpr] at h
    obtain ⟨em1, hr, h⟩ := andThen_ok h
    obtain ⟨h1, h2⟩ := ih em em1 hr
    rcases hk : op.kind <;> rw [hk] at h <;> simp at h <;> subst h <;>
      exact ⟨h1, h2⟩
  | Binary lhs op rhs ih1 ih2 =>
    intro em em' h
    rw [visitExpr] at h
    obtain ⟨em1, hl, h⟩ := andThen_ok h
    obtain ⟨em2, hr, h⟩ := andThen_ok h
    obtain ⟨h1, h2⟩ := ih1 em em1 hl
    obtain ⟨h3, h4⟩ := ih2 em1 em2 hr
    rcases hk : op.kind <;> rw [hk] at h <;> simp at h <;> subst h <;>
      exact ⟨h3.trans h1, h4.trans h2⟩
  | Logical lhs op rhs ih1 ih2 =>
    intro em em' h
    rw [visitExpr] at h
    obtain ⟨em1, hl, h⟩ := andThen_ok h
    obtain ⟨h1, h2⟩ := ih1 em em1 hl
    obtain ⟨h3, h4⟩ := ih2 em1 em' h
    exact ⟨h3.trans h1, h4.trans h2⟩
  | Call t => intro em em' h; rw [visitExpr] at h; cases h
  | New t => intro em em' h; rw [visitExpr] at h; cases h
  | Get t => intro em em' h; rw [visitExpr] at h; cases h
  | SetE t => intro em em' h; rw [visitExpr] at h; cases h
  | Index t => intro em em' h; rw [visitExpr] at h; cases h
  | Func t => intro em em' h; rw [visitExpr] at h; cases h

theorem makeIdent_scope (em : Emitter) (n : Str) :
    (makeIdent em n).2.scope_depth = em.scope_depth ∧
    (makeIdent em n).2.locals = em.locals := by
  unfold makeIdent
  repeat' split
  all_goals exact ⟨rfl, rfl⟩

/-- A successful assignment preserves `scope_depth` and at most pushes one
local at the current depth. -/
theorem visitAssignment_scope {name op : Token} {value : Expr}
    {em em' : Emitter} (h : visitAssignment name op value em = .ok em') :
    em'.scope_depth = em.scope_depth ∧
    ∃ new, em'.locals = em.locals ++ new ∧ ∀ p ∈ new, p.2 = em.scope_depth := by
  unfold visitAssignment at h
  obtain ⟨em1, hv, h⟩ := andThen_ok h
  obtain ⟨h1, h2⟩ := visitExpr_scope value em em1 hv
  beta_reduce at h
  by_cases hd : 0 < em1.scope_depth
  · rw [if_pos hd] at h
    by_cases ha : op.kind = .Assign
    · rw [if_pos ha] at h
      rcases hs : getLocalSlot em1 name.lexeme with _ | idx
      all_goals simp only [hs] at h
      · rcases hi : getIdent em1 name with e | i
        all_goals simp only [hi] at h
        · cases h
        · simp at h
          subst h
          exact ⟨h1, [], by simp [h2], by simp⟩
      · simp at h
        subst h
        exact ⟨h1, [], by simp [h2], by simp⟩
    · rw [if_neg ha] at h
      by_cases hdec : op.kind = .Declare
      · rw [if_pos hdec] at h
        rcases hgd : getLocalDepth em1 name.lexeme with _ | idx
        all_goals simp only [hgd] at h
        · simp at h
          subst h
          exact ⟨h1, [(name.lexeme, em1.scope_depth)], by simp [h2],
                 by simp [h1]⟩
        · by_cases hne : idx ≠ em1.scope_depth
          · rw [if_pos hne] at h
            simp at h
            subst h
            exact ⟨h1, [(name.lexeme, em1.scope_depth)], by simp [h2],
                   by simp [h1]⟩
          · rw [if_neg hne] at h
            split at h
            all_goals cases h
      · rw [if_neg hdec] at h
        simp at h
        subst h
        exact ⟨h1, [], by simp [h2], by simp⟩
  · rw [if_neg hd] at h
    by_cases ha : op.kind = .Assign
    · rw [if_pos ha] at h
      rcases hi : getIdent em1 name with e | i
      all_goals simp only [hi] at h
      · cases h
      · simp at h
        subst h
        exact ⟨h1, [], by simp [h2], by simp⟩
    · rw [if_neg ha] at h
      by_cases hdec : op.kind = .Declare
      · rw [if_pos hdec] at h
        rcases hmk2 : makeIdent em1 name.lexeme with ⟨idx, em2⟩
        simp only [hmk2] at h
        simp at h
        subst h
        have e2 : (makeIdent em1 name.lexeme).2 = em2 := by rw [hmk2]
        have hs2 : em2.scope_depth = em1.scope_depth := by
          rw [← e2]
          exact (makeIdent_scope em1 name.lexeme).1
        have hl2 : em2.locals = em1.locals := by
          rw [← e2]
          exact (makeIdent_scope em1 name.lexeme).2
        exact ⟨hs2.trans h1, [], by simp [hl2, h2], by simp⟩
      · rw [if_neg hdec] at h
        simp at h
        subst h
        exact ⟨h1, [], by simp [h2], by simp⟩

/-- The scope-exit loop pops exactly the entries deeper than `scope_depth`
and stops at the first entry at or below it. -/
theorem popLocalsF_exact :
    ∀ (new : List (Str × Nat)) (fuel line : Nat) (em : Emitter)
      (L : List (Str × Nat)),
    em.locals = L ++ new → new.length < fuel →
    (∀ p ∈ new, em.scope_depth < p.2) → (∀ p ∈ L, p.2 ≤ em.scope_depth) →
    (popLocalsF fuel line em).locals = L ∧
    (popLocalsF fuel line em).scope_depth = em.scope_depth := by
  intro new
  induction new using List.reverseRecOn with
  | nil =>
    intro fuel line em L hloc hf hnew hL
    simp at hloc
    cases fuel with
    | zero => omega
    | succ f =>
      rcases hgl : em.locals.getLast? with _ | p
      · constructor
        · rw [popLocalsF]
          simp only [hgl]
          exact hloc
        · rw [popLocalsF]
          simp only [hgl]
      · have hp : p ∈ L := by
          rw [← hloc]
          exact List.mem_of_mem_getLast? hgl
        constructor
        · rw [popLocalsF]
          simp only [hgl]
          rw [if_neg (by have := hL p hp; omega)]
          exact hloc
        · rw [popLocalsF]
          simp only [hgl]
          rw [if_neg (by have := hL p hp; omega)]
  | append_singleton ns p ih =>
    intro fuel line em L hloc hf hnew hL
    cases fuel with
    | zero => simp at hf
    | succ f =>
      rw [popLocalsF]
      have hassoc : em.locals = (L ++ ns) ++ [p] := by
        rw [hloc]
        simp
      have hgl : em.locals.getLast? = some p := by
        rw [hassoc]
        exact List.getLast?_concat _
      simp only [hgl]
      rw [if_pos (hnew p (by simp))]
      have hdrop : em.locals.dropLast = L ++ ns := by
        rw [hassoc]
        exact List.dropLast_concat
      have := ih f line
        { em with chunk := em.chunk.writeU8 .Pop line,
                  locals := em.locals.dropLast } L
        (by simpa using hdrop) (by simp at hf; omega)
        (fun q hq => hnew q (by simp [hq]))
        (fun q hq => hL q hq)
      exact this

/-- The emitter's scope invariant, by induction on the visitor fuel: a
successful statement preserves `scope_depth` and appends only locals at the
current depth; a successful block restores `locals` and `scope_depth`
exactly. -/
theorem emitInv : ∀ fuel : Nat,
    (∀ (st : Stmt) (em em' : Emitter), visitStmt fuel st em = .ok em' →
       EmWF em →
       em'.scope_depth = em.scope_depth ∧
       ∃ new, em'.locals = em.locals ++ new ∧
         ∀ p ∈ new, p.2 = em.scope_depth) ∧
    (∀ (l : List Stmt) (em em' : Emitter), visitStmts fuel l em = .ok em' →
       EmWF em →
       em'.scope_depth = em.scope_depth ∧
       ∃ new, em'.locals = em.locals ++ new ∧
         ∀ p ∈ new, p.2 = em.scope_depth) ∧
    (∀ (endTok : Token) (body : List Stmt) (em em' : Emitter),
       visitBlock fuel endTok body em = .ok em' → EmWF em →
       em'.scope_depth = em.scope_depth ∧ em'.locals = em.locals) ∧
    (∀ (cond : Expr) (doTok : Token) (thenB : List Stmt)
       (elseB : Option (List Stmt)) (endTok : Token) (em em' : Emitter),
       visitIf fuel cond doTok thenB elseB endTok em = .ok em' → EmWF em →
       em'.scope_depth = em.scope_depth ∧ em'.locals = em.locals) := by
  intro fuel
  induction fuel with
  | zero =>
    refine ⟨?_, ?_, ?_, ?_⟩
    · intro st em em' h
      simp only [visitStmt] at h
      cases h
    · intro l em em' h
      simp only [visitStmts] at h
      cases h
    · intro endTok body em em' h
      simp only [visitBlock] at h
      cases h
    · intro cond doTok thenB elseB endTok em em' h
      simp only [visitIf] at h
      cases h
  | succ f ih =>
    obtain ⟨ihS, ihL, ihB, ihI⟩ := ih
    have stmtCase : ∀ (st : Stmt) (em em' : Emitter),
        visitStmt (f + 1) st em = .ok em' → EmWF em →
        em'.scope_depth = em.scope_depth ∧
        ∃ new, em'.locals = em.locals ++ new ∧
          ∀ p ∈ new, p.2 = em.scope_depth := by
      intro st em em' h hwf
      cases st with
      | ExprStmt e =>
        simp only [visitStmt] at h
        obtain ⟨em1, hv, h⟩ := andThen_ok h
        obtain ⟨h1, h2⟩ := visitExpr_scope e em em1 hv
        simp at h
        subst h
        exact ⟨h1, [], by simp [h2], by simp⟩
      | Assignment name op value =>
        simp only [visitStmt] at h
        exact visitAssignment_scope h
      | Block endTok body =>
        simp only [visitStmt] at h
        obtain ⟨hd, hl⟩ := ihB endTok body em em' h hwf
        exact ⟨hd, [], by simp [hl], by simp⟩
      | If cond doTok thenB elseB endTok =>
        simp only [visitStmt] at h
        obtain ⟨hd, hl⟩ := ihI cond doTok thenB elseB endTok em em' h hwf
        exact ⟨hd, [], by simp [hl], by simp⟩
      | While cond body =>
        simp only [visitStmt] at h
        cases h
      | For name iter body =>
        simp only [visitStmt] at h
        cases h
      | Func name body =>
        simp only [visitStmt] at h
        cases h
      | Retn kw value =>
        simp only [visitStmt] at h
        obtain ⟨em1, hv, h⟩ := andThen_ok h
        have hse : em1.scope_depth = em.scope_depth ∧ em1.locals = em.locals := by
          cases value with
          | some e => exact visitExpr_scope e em em1 hv
          | none =>
            cases hv
            exact ⟨rfl, rfl⟩
        simp at h
        subst h
        exact ⟨hse.1, [], by simp [hse.2], by simp⟩
      | Assert kw value =>
        simp only [visitStmt] at h
        obtain ⟨em1, hv, h⟩ := andThen_ok h
        obtain ⟨h1, h2⟩ := visitExpr_scope value em em1 hv
        simp at h
        subst h
        exact ⟨h1, [], by simp [h2], by simp⟩
      | Data name =>
        simp only [visitStmt] at h
        cases h
    have listCase : ∀ (l : List Stmt) (em em' : Emitter),
        visitStmts (f + 1) l em = .ok em' → EmWF em →
        em'.scope_depth = em.scope_depth ∧
        ∃ new, em'.locals = em.locals ++ new ∧
          ∀ p ∈ new, p.2 = em.scope_depth := by
      intro l em em' h hwf
      cases l with
      | nil =>
        simp only [visitStmts] at h
        cases h
        exact ⟨rfl, [], by simp, by simp⟩
      | cons s rest =>
        simp only [visitStmts] at h
        obtain ⟨em1, h1, h⟩ := andThen_ok h
        obtain ⟨hd1, new1, hl1, hn1⟩ := ihS s em em1 h1 hwf
        have hwf1 : EmWF em1 := by
          intro p hp
          rw [hl1] at hp
          rw [hd1]
          rcases List.mem_append.1 hp with hp | hp
          · exact hwf p hp
          · rw [hn1 p hp]
        obtain ⟨hd2, new2, hl2, hn2⟩ := ihL rest em1 em' h hwf1
        refine ⟨hd2.trans hd1, new1 ++ new2, ?_, ?_⟩
        · rw [hl2, hl1, List.append_assoc]
        · intro p hp
          rcases List.mem_append.1 hp with hp | hp
          · exact hn1 p hp
          · rw [hn2 p hp, hd1]
    have blockCase : ∀ (endTok : Token) (body : List Stmt) (em em' : Emitter),
        visitBlock (f + 1) endTok body em = .ok em' → EmWF em →
        em'.scope_depth = em.scope_depth ∧ em'.locals = em.locals := by
      intro endTok body em em' h hwf
      simp only [visitBlock] at h
      obtain ⟨em2, hstm, h⟩ := andThen_ok h
      have hwfIn : EmWF { em with scope_depth := em.scope_depth + 1 } := by
        intro p hp
        have := hwf p hp
        show p.2 ≤ em.scope_depth + 1
        omega
      obtain ⟨hd2, new, hl2, hn2⟩ := ihL body _ em2 hstm hwfIn
      simp at h
      subst h
      have hd2' : em2.scope_depth = em.scope_depth + 1 := hd2
      have hl2' : em2.locals = em.locals ++ new := hl2
      have hn2' : ∀ p ∈ new, p.2 = em.scope_depth + 1 := hn2
      rw [popLocals]
      have hpl := popLocalsF_exact new
        (({ em2 with scope_depth := em2.scope_depth - 1 } : Emitter).locals.length + 1)
        endTok.line { em2 with scope_depth := em2.scope_depth - 1 } em.locals
        (by show em2.locals = _; rw [hl2'])
        (by
          show new.length < em2.locals.length + 1
          rw [hl2']
          simp only [List.length_append]
          omega)
        (by
          intro p hp
          show em2.scope_depth - 1 < p.2
          rw [hn2' p hp, hd2']
          omega)
        (by
          intro p hp
          show p.2 ≤ em2.scope_depth - 1
          rw [hd2']
          simpa using hwf p hp)
      refine ⟨hpl.2.trans ?_, hpl.1⟩
      show em2.scope_depth - 1 = em.scope_depth
      rw [hd2']
      omega
    have ifCase : ∀ (cond : Expr) (doTok : Token) (thenB : List Stmt)
        (elseB : Option (List Stmt)) (endTok : Token) (em em' : Emitter),
        visitIf (f + 1) cond doTok thenB elseB endTok em = .ok em' → EmWF em →
        em'.scope_depth = em.scope_depth ∧ em'.locals = em.locals := by
      intro cond doTok thenB elseB endTok em em' h hwf
      simp only [visitIf] at h
      obtain ⟨em1, hc, h⟩ := andThen_ok h
      obtain ⟨hd1, hl1⟩ := visitExpr_scope cond em em1 hc
      beta_reduce at h
      rcases hwj : em1.chunk.writeJump .JumpFalse doTok.line with ⟨ch1, condFalse⟩
      simp only [hwj] at h
      obtain ⟨em2, hthen, h⟩ := andThen_ok h
      have hwf1 : EmWF { em1 with chunk := ch1.writeU8 .Pop doTok.line } := by
        intro p hp
        have hp' : p ∈ em.locals := by
          rw [← hl1]
          exact hp
        show p.2 ≤ em1.scope_depth
        rw [hd1]
        exact hwf p hp'
      obtain ⟨hd2, hl2⟩ := ihB endTok thenB _ em2 hthen hwf1
      have hd2' : em2.scope_depth = em1.scope_depth := hd2
      have hl2' : em2.locals = em1.locals := hl2
      rcases hwj2 : em2.chunk.writeJump .Jump doTok.line with ⟨ch3, condTrue⟩
      simp only [hwj2] at h
      obtain ⟨em4, helse, h⟩ := andThen_ok h
      have hse : em4.scope_depth = em2.scope_depth ∧ em4.locals = em2.locals := by
        cases elseB with
        | some b =>
          have hwf3 : EmWF { em2 with chunk := ch3.patchJump condFalse } := by
            intro p hp
            have hp' : p ∈ em.locals := by
              rw [← hl1, ← hl2']
              exact hp
            show p.2 ≤ em2.scope_depth
            rw [hd2', hd1]
            exact hwf p hp'
          have helse' : visitBlock f endTok b
              { em2 with chunk := ch3.patchJump condFalse } = .ok em4 := helse
          exact ihB endTok b { em2 with chunk := ch3.patchJump condFalse }
            em4 helse' hwf3
        | none =>
          cases helse
          exact ⟨rfl, rfl⟩
      simp at h
      subst h
      exact ⟨(hse.1.trans hd2').trans hd1, (hse.2.trans hl2').trans hl1⟩
    exact ⟨stmtCase, listCase, blockCase, ifCase⟩

/-- C5 (amended): after *successfully* compiling any balanced `do … end`
block — from an emitter state whose existing locals all sit at depth at most
`scope_depth` — the emitter's `locals` and `scope_depth` return exactly to
their pre-block values.  (On the error path this fails: see the
counterexample theorem for this claim.) -/
theorem block_scope_restored (fuel : Nat) (endTok : Token) (body : List Stmt)
    (em em' : Emitter) (h : visitBlock fuel endTok body em = .ok em')
    (hwf : EmWF em) :
    em'.scope_depth = em.scope_depth ∧ em'.locals = em.locals :=
  (emitInv fuel).2.2.1 endTok body em em' h hwf

/-- Witness for C5: compiling `do v := 1 end` from the fresh emitter
restores `scope_depth = 0` and empty `locals`. -/
theorem block_scope_restored_witness :
    (⟨⟨[1, 0, 0, 17], [1, 1, 1, 2], [.Integer 1]⟩, [], [], 0, []⟩ : Emitter).scope_depth =
      (Emitter.new Chunk.empty).scope_depth ∧
    (⟨⟨[1, 0, 0, 17], [1, 1, 1, 2], [.Integer 1]⟩, [], [], 0, []⟩ : Emitter).locals =
      (Emitter.new Chunk.empty).locals :=
  block_scope_restored 10 (tok .End "end" 2) progGoodBlockBody
    (Emitter.new Chunk.empty)
    ⟨⟨[1, 0, 0, 17], [1, 1, 1, 2], [.Integer 1]⟩, [], [], 0, []⟩
    (by decide)
    (by
      intro p hp
      simp [Emitter.new] at hp)

/-! ## Scanner lemmas for C8 -/

theorem slurpWhitespaceF_no (fuel : Nat) (s : ScanState)
    (h : ¬(s.peek = 35 ∨ isWs s.peek)) (hf : 0 < fuel) :
    slurpWhitespaceF fuel s = some s := by
  cases fuel with
  | zero => omega
  | succ f => rw [slurpWhitespaceF, if_neg h]

theorem numLoopF_all (fuel : Nat) : ∀ (s : ScanState),
    (∀ i, s.current ≤ i → i < s.source.length → isDigit (s.source.getD i 0)) →
    s.current ≤ s.source.length →
    s.source.length - s.current < fuel →
    numLoopF fuel s = { s with current := s.source.length } := by
  induction fuel with
  | zero =>
    intro s h1 h2 h3
    omega
  | succ f ih =>
    intro s h1 h2 h3
    rw [numLoopF]
    by_cases hc : s.current < s.source.length
    · have hnle : ¬ s.source.length ≤ s.current := by omega
      have hd : isDigit s.peek := by
        unfold ScanState.peek
        rw [if_neg (by simp [ScanState.isAtEnd]; omega)]
        exact h1 s.current le_rfl hc
      rw [if_pos hd]
      have hrec := ih s.bump
        (fun i hi1 hi2 => h1 i (by simp [ScanState.bump] at hi1; omega) hi2)
        (by simp [ScanState.bump]; omega)
        (by simp [ScanState.bump]; omega)
      rw [hrec]
      cases s
      simp [ScanState.bump]
    · have hle : s.source.length ≤ s.current := by omega
      have hnd : ¬ isDigit s.peek := by
        simp [ScanState.peek, ScanState.isAtEnd, hle, isDigit]
      rw [if_neg hnd]
      have heq : s.current = s.source.length := by omega
      obtain ⟨src, tks, st, cur, ln⟩ := s
      dsimp only at heq ⊢
      rw [heq]

theorem utf8Valid_ascii : ∀ bs : Str, (∀ b ∈ bs, b < 128) → utf8Valid bs = true := by
  intro bs
  unfold utf8Valid
  induction bs with
  | nil => intro _; rfl
  | cons b rest ih =>
    intro h
    rw [utf8ValidK, if_pos (h b (by simp))]
    exact ih (fun x hx => h x (by simp [hx]))

theorem scanKind_digit (c : Nat) (s : ScanState) (h : isDigit c) :
    scanKind c s = some (numberTok s) := by
  have h48 : 48 ≤ c ∧ c ≤ 57 := by simpa [isDigit] using h
  unfold scanKind
  rw [if_neg (by omega : ¬ c = 91), if_neg (by omega : ¬ c = 93),
      if_neg (by omega : ¬ c = 40), if_neg (by omega : ¬ c = 41),
      if_neg (by omega : ¬ c = 44), if_neg (by omega : ¬ c = 45),
      if_neg (by omega : ¬ c = 43), if_neg (by omega : ¬ c = 42),
      if_neg (by omega : ¬ c = 47), if_neg (by omega : ¬ c = 94),
      if_neg (by omega : ¬ c = 37), if_neg (by omega : ¬ c = 38),
      if_neg (by omega : ¬ c = 124), if_neg (by omega : ¬ c = 46),
      if_neg (by omega : ¬ c = 33), if_neg (by omega : ¬ c = 61),
      if_neg (by omega : ¬ c = 62), if_neg (by omega : ¬ c = 60),
      if_neg (by omega : ¬ c = 34), if_pos h]

theorem digit_lt_128 (ds : Str) (hdig : ∀ b ∈ ds, isDigit b) :
    ∀ b ∈ ds, b < 128 := by
  intro b hb
  have := hdig b hb
  simp [isDigit] at this
  omega

theorem intPartTok_overflow (ds : Str) (st : ScanState)
    (hdig : ∀ b ∈ ds, isDigit b) (hbig : 2 ^ 63 - 1 < digitsVal ds)
    (hlex : st.lexeme = ds) :
    intPartTok st = .error ⟨.InvalidNumberLiteral ds, some st.line, none⟩ := by
  have hutf : utf8Valid ds = true := utf8Valid_ascii ds (digit_lt_128 ds hdig)
  have hparse : parseI64 ds = none := by
    unfold parseI64
    rw [if_neg]
    rintro ⟨-, -, hle⟩
    omega
  unfold intPartTok
  rw [hlex, hutf, hparse]
  rw [if_pos rfl]

/-- C8: lexing `1..5` yields Integer 1, ExclusiveRange, Integer 5 — the `..`
after a digit run is never consumed as a decimal point (the trailing `Eof`
token reuses the last lexeme, as `add_token` slices the current one) — and
any all-digit source whose value exceeds `i64::MAX` scans to
`InvalidNumberLiteral` carrying the literal and its line. -/
theorem range_lexing_and_overflow :
    scanTokens (bytes "1..5") =
      .toks [⟨.Integer 1, bytes "1", 1⟩, ⟨.ExclusiveRange, bytes "..", 1⟩,
             ⟨.Integer 5, bytes "5", 1⟩, ⟨.Eof, bytes "5", 1⟩] ∧
    ∀ ds : Str, ds ≠ [] → (∀ b ∈ ds, isDigit b) →
      2 ^ 63 - 1 < digitsVal ds →
      scanTokens ds = .fail ⟨.InvalidNumberLiteral ds, some 1, none⟩ := by
  refine ⟨by decide, ?_⟩
  intro ds hne hdig hbig
  obtain ⟨d, rest, rfl⟩ : ∃ d rest, ds = d :: rest := by
    cases ds with
    | nil => exact absurd rfl hne
    | cons d rest => exact ⟨d, rest, rfl⟩
  have hd0 : isDigit d := hdig d (by simp)
  have hdb : 48 ≤ d ∧ d ≤ 57 := by simpa [isDigit] using hd0
  have hpeek : (⟨d :: rest, [], 0, 0, 1⟩ : ScanState).peek = d := by
    simp [ScanState.peek, ScanState.isAtEnd]
  have hslurp : slurpWhitespace ⟨d :: rest, [], 0, 0, 1⟩
      = some ⟨d :: rest, [], 0, 0, 1⟩ := by
    unfold slurpWhitespace
    refine slurpWhitespaceF_no _ _ ?_ ?_
    · rw [hpeek]
      simp [isWs]
      omega
    · simp [gas]
  have h1 : numLoop ⟨d :: rest, [], 0, 1, 1⟩
      = ⟨d :: rest, [], 0, rest.length + 1, 1⟩ := by
    unfold numLoop
    have := numLoopF_all (gas ⟨d :: rest, [], 0, 1, 1⟩) ⟨d :: rest, [], 0, 1, 1⟩
      (by
        intro i hi1 hi2
        apply hdig
        simp only at hi2
        rw [List.getD_eq_getElem (d :: rest) 0 hi2]
        exact List.getElem_mem hi2)
      (by simp)
      (by simp [gas])
    simpa using this
  have hlex : (⟨d :: rest, [], 0, rest.length + 1, 1⟩ : ScanState).lexeme
      = d :: rest := by
    simp [ScanState.lexeme]
  have hnum : numberTok ⟨d :: rest, [], 0, 1, 1⟩
      = .error ⟨.InvalidNumberLiteral (d :: rest), some 1, none⟩ := by
    have hp1 : (⟨d :: rest, [], 0, rest.length + 1, 1⟩ : ScanState).peek = 0 := by
      simp [ScanState.peek, ScanState.isAtEnd]
    unfold numberTok
    simp only [h1, hp1]
    rw [if_neg (by omega : ¬ (0 : Nat) = 46)]
    exact intPartTok_overflow (d :: rest) _ hdig hbig hlex
  have hnt : nextToken ⟨d :: rest, [], 0, 0, 1⟩
      = some (.error ⟨.InvalidNumberLiteral (d :: rest), some 1, none⟩) := by
    unfold nextToken
    rw [hslurp]
    have hend : (⟨d :: rest, [], 0, 0, 1⟩ : ScanState).isAtEnd = false := by
      simp [ScanState.isAtEnd]
    simp only [hend, Bool.false_eq_true, if_false]
    have hcur : ({ (⟨d :: rest, [], 0, 0, 1⟩ : ScanState) with
        start := (⟨d :: rest, [], 0, 0, 1⟩ : ScanState).current }).cur = d := rfl
    have hbump : ({ (⟨d :: rest, [], 0, 0, 1⟩ : ScanState) with
        start := (⟨d :: rest, [], 0, 0, 1⟩ : ScanState).current }).bump
        = ⟨d :: rest, [], 0, 1, 1⟩ := rfl
    rw [hcur, hbump, scanKind_digit d _ hd0, hnum]
  unfold scanTokens
  rw [show (d :: rest).length + 1 = rest.length + 1 + 1 from by simp]
  rw [scanLoop, hnt]

/-- Witness for C8's hypotheses: twenty nines overflow `i64` and scan to
`InvalidNumberLiteral` at line 1. -/
theorem range_lexing_and_overflow_witness :
    scanTokens (bytes "99999999999999999999") =
      .fail ⟨.InvalidNumberLiteral (bytes "99999999999999999999"), some 1, none⟩ :=
  range_lexing_and_overflow.2 (bytes "99999999999999999999")
    (by decide) (by decide) (by decide)

end Piccolo
